import Mathlib

/-!
# Verification of the BETF tensor-factorization model (`algo/betf/main.py`)

This file is a shallow embedding, over `ℚ`, of the BETF model implemented in
`src/algo/betf/main.py`: the bias estimation (`_calculate_vote_bias`,
`_calculate_rating_bias`), the tensor scorer (`tensor_dot` and its four
derivatives), the joint stochastic-gradient optimizer (`BETF_Model.fit`), the
predictor (`BETF_Model.predict`), and the argument loader (`load_args`).

Modelling conventions:
* Machine floats are modelled by exact rationals (`ℚ`).
* `sigmoid` and `sigmoid_der1` come from `util/aux.py`, which is not part of
  the sources; they are treated as opaque function parameters `sig`, `sigDer`.
  Likewise `math.sqrt` is an opaque parameter `sqrtFn : ℕ → ℚ` (the source
  only applies it to the integer `it+1` inside `fit`), and the `random.shuffle`
  calls are modelled by explicit reordering-function parameters.
* Python dictionaries that the code only reads pointwise are modelled as
  functions into `Option`; the review dictionary, which the code also
  iterates, is an association list.
* Operations that can raise (`KeyError` on a missing dictionary key,
  `ZeroDivisionError` on an empty mean) return `Except Err`.
* The entity index sets built with Python `set(...)` have unspecified
  iteration order in the source; the embedding fixes one order with
  `List.dedup` (any order gives the same model, and no claim depends on it).
-/

/-- A helpfulness vote record: fields `voter`, `author`, `review`, `vote`
    as read by the source (`vote['voter']` etc.). Entity ids are numbers. -/
structure Vote where
  voter : ℕ
  author : ℕ
  review : ℕ
  vote : ℚ
  deriving Repr, DecidableEq

/-- A review record: fields `author`, `product`, `rating` as read by the
    source (`review['author']` etc.). -/
structure Review where
  author : ℕ
  product : ℕ
  rating : ℚ
  deriving Repr, DecidableEq

/-- Python exceptions that the embedded code can raise:
    `KeyError` (missing dictionary key) and `ZeroDivisionError`. -/
inductive Err where
  | key : Err
  | div : Err
  deriving Repr, DecidableEq

/-- `d[k]` on an association-list dictionary: first entry with key `k`. -/
def assocLookup (l : List (ℕ × Review)) (k : ℕ) : Option Review :=
  match l with
  | [] => none
  | (k', v) :: rest => if k' = k then some v else assocLookup rest k

/-- The index of `x` in list `l` (`{u:i for i, u in enumerate(l)}` lookup):
    `some i` for the first position holding `x`, else `none`. -/
def lookupIdx (l : List ℕ) (x : ℕ) : Option ℕ :=
  match l with
  | [] => none
  | y :: rest => if y = x then some 0 else (lookupIdx rest x).map (· + 1)

theorem lookupIdx_isSome_iff (l : List ℕ) (x : ℕ) :
    (lookupIdx l x).isSome = true ↔ x ∈ l := by
  induction l with
  | nil => simp [lookupIdx]
  | cons y rest ih =>
    by_cases h : y = x
    · simp [lookupIdx, h]
    · have h' : x ≠ y := fun h' => h h'.symm
      simp [lookupIdx, h, ih, h']

/-! ## Tensor scorer (`tensor_dot` and derivatives, lines 202-288)

The source accumulates with three nested `for` loops over `xrange(_K)`;
the embedding writes the same accumulation as a `Finset.range` sum
(`ℚ` addition is commutative and associative, so the value agrees). -/

/-- `tensor_dot(v, a, p)`: `sum S[x,y,z]*V[v,x]*A[a,y]*P[p,z]` over
    `x, y, z < K` (lines 213-218). -/
def tensor_dot (K : ℕ) (S : ℕ → ℕ → ℕ → ℚ) (V A P : ℕ → ℕ → ℚ)
    (v a p : ℕ) : ℚ :=
  ∑ x ∈ Finset.range K, ∑ y ∈ Finset.range K, ∑ z ∈ Finset.range K,
    S x y z * V v x * A a y * P p z

/-- `tensor_dot_der_v(a, p)` entry `d`: `sum S[d,y,z]*A[a,y]*P[p,z]`
    (lines 230-235). -/
def tensor_dot_der_v (K : ℕ) (S : ℕ → ℕ → ℕ → ℚ) (A P : ℕ → ℕ → ℚ)
    (a p : ℕ) : ℕ → ℚ := fun d =>
  ∑ y ∈ Finset.range K, ∑ z ∈ Finset.range K, S d y z * A a y * P p z

/-- `tensor_dot_der_a(v, p)` entry `d`: `sum S[x,d,z]*V[v,x]*P[p,z]`
    (lines 247-252). -/
def tensor_dot_der_a (K : ℕ) (S : ℕ → ℕ → ℕ → ℚ) (V P : ℕ → ℕ → ℚ)
    (v p : ℕ) : ℕ → ℚ := fun d =>
  ∑ x ∈ Finset.range K, ∑ z ∈ Finset.range K, S x d z * V v x * P p z

/-- `tensor_dot_der_p(v, a)` entry `d`: `sum S[x,y,d]*V[v,x]*A[a,y]`
    (lines 264-269). -/
def tensor_dot_der_p (K : ℕ) (S : ℕ → ℕ → ℕ → ℚ) (V A : ℕ → ℕ → ℚ)
    (v a : ℕ) : ℕ → ℚ := fun d =>
  ∑ x ∈ Finset.range K, ∑ y ∈ Finset.range K, S x y d * V v x * A a y

/-- `tensor_dot_der_s(v, a, p)` cell `(x,y,z)`: `V[v,x]*A[a,y]*P[p,z]`
    (lines 283-288). -/
def tensor_dot_der_s (V A P : ℕ → ℕ → ℚ) (v a p : ℕ) :
    ℕ → ℕ → ℕ → ℚ := fun x y z => V v x * A a y * P p z

/-! ## Bias estimation (`_calculate_vote_bias` lines 143-168,
`_calculate_rating_bias` lines 170-200)

The source keeps two dictionaries per group level (a running sum, named
`*_bias`, and a count) updated in one pass, then divides each present sum by
its count. The embedding keeps the same state as one map into sum-count
pairs, built by the same left-to-right pass. -/

/-- One grouping pass of the bias estimator: for each record `x` (processed
    left to right, as the source's `for` loop), ensure key `key x` is
    present (initialized to sum `0`, count `0`) and add `term x` to its sum
    and `1` to its count. -/
def biasAccum (key : α → ℕ) (term : α → ℚ) (l : List α) :
    ℕ → Option (ℚ × ℕ) :=
  l.foldl (fun acc x =>
    Function.update acc (key x)
      (some ((((acc (key x)).getD (0, 0)).1 + term x,
              ((acc (key x)).getD (0, 0)).2 + 1))) )
    (fun _ => none)

/-- `self.voter_bias` after `_calculate_vote_bias` (lines 149-157):
    per-voter average of `vote - overall_mean`. -/
def voterBiasOf (mean : ℚ) (votes : List Vote) : ℕ → Option ℚ :=
  fun u => (biasAccum (·.voter) (fun vt => vt.vote - mean) votes u).map
    (fun pr => pr.1 / (pr.2 : ℚ))

/-- `self.review_bias` after `_calculate_vote_bias` (lines 158-168):
    per-review average of `vote - overall_mean - voter_bias[voter]`.
    The `voter_bias` key is always present there (it was just built from
    the same vote list), so the lookup is written with `getD`. -/
def reviewBiasOf (mean : ℚ) (votes : List Vote) : ℕ → Option ℚ :=
  fun r => (biasAccum (·.review)
      (fun vt => vt.vote - mean - (voterBiasOf mean votes vt.voter).getD 0)
      votes r).map
    (fun pr => pr.1 / (pr.2 : ℚ))

/-- `self.author_bias` after `_calculate_rating_bias` (lines 181-189):
    per-author average of `rating - rating_avg` over all reviews in the
    supplied dictionary. -/
def authorBiasOf (avg : ℚ) (revs : List Review) : ℕ → Option ℚ :=
  fun a => (biasAccum (·.author) (fun rv => rv.rating - avg) revs a).map
    (fun pr => pr.1 / (pr.2 : ℚ))

/-- `self.product_bias` after `_calculate_rating_bias` (lines 190-200):
    per-product average of `rating - rating_avg - author_bias[author]`.
    The `author_bias` key is always present (built from the same review
    list), so the lookup is written with `getD`. -/
def productBiasOf (avg : ℚ) (revs : List Review) : ℕ → Option ℚ :=
  fun p => (biasAccum (·.product)
      (fun rv => rv.rating - avg - (authorBiasOf avg revs rv.author).getD 0)
      revs p).map
    (fun pr => pr.1 / (pr.2 : ℚ))

/-! ## Model state and fit context -/

/-- The mutable numeric state of `BETF_Model` during `fit`: the latent
    matrices `V`, `A`, `P`, the core tensor `S` (mutated by the two gradient
    passes and the decay step) and the four bias dictionaries (mutated by the
    decay step only in dynamic-bias mode). Matrices are total functions on
    indices; only entries with index below the corresponding entity count and
    column below `K` are ever read. -/
structure Model where
  V : ℕ → ℕ → ℚ
  A : ℕ → ℕ → ℚ
  P : ℕ → ℕ → ℚ
  S : ℕ → ℕ → ℕ → ℚ
  voterBias : ℕ → Option ℚ
  reviewBias : ℕ → Option ℚ
  authorBias : ℕ → Option ℚ
  productBias : ℕ → Option ℚ

/-- The data `fit` computes before its epoch loop and never changes
    afterwards: hyperparameters, the opaque library functions, the review
    dictionary, the shuffled processing orders, the entity index lists and
    the two global means. -/
structure Ctx where
  K : ℕ
  beta : ℚ
  tol : ℚ
  updateBias : Bool
  sig : ℚ → ℚ
  sigDer : ℚ → ℚ
  sqrtFn : ℕ → ℚ
  reviewsL : List (ℕ × Review)
  votes : List Vote
  revs : List Review
  distinctVoters : List ℕ
  distinctAuthors : List ℕ
  distinctProducts : List ℕ
  overallMean : ℚ
  ratingAvg : ℚ

/-- `self.voter_map` (line 134): entity id to dense index. -/
def Ctx.voterMap (ctx : Ctx) (u : ℕ) : Option ℕ := lookupIdx ctx.distinctVoters u

/-- `self.author_map` (line 135). -/
def Ctx.authorMap (ctx : Ctx) (a : ℕ) : Option ℕ := lookupIdx ctx.distinctAuthors a

/-- `self.product_map` (line 136). -/
def Ctx.productMap (ctx : Ctx) (p : ℕ) : Option ℕ := lookupIdx ctx.distinctProducts p

/-- `M[i,:] = row` on a matrix held as a function. -/
def updateRow (M : ℕ → ℕ → ℚ) (i : ℕ) (row : ℕ → ℚ) : ℕ → ℕ → ℚ :=
  fun i' x => if i' = i then row x else M i' x

/-! ## The vote pass (lines 314-337) -/

/-- Processing of one vote inside the vote pass: resolve the review and the
    three entity indices, look up the two biases, form the pre-sigmoid
    prediction, and subtract the four gradient steps.  As in the source
    (lines 326-337), `new_V`, `new_A`, `new_P`, `new_S` are all computed
    from the incoming state `m` and only then written back. -/
def voteStep (ctx : Ctx) (alpha : ℚ) (m : Model) (vt : Vote) : Except Err Model :=
  match assocLookup ctx.reviewsL vt.review with
  | none => .error .key
  | some rev =>
    match ctx.voterMap vt.voter, ctx.authorMap vt.author,
          ctx.productMap rev.product,
          m.voterBias vt.voter, m.reviewBias vt.review with
    | some v, some a, some p, some vb, some rb =>
      let pred := ctx.overallMean + vb + rb + tensor_dot ctx.K m.S m.V m.A m.P v a p
      let err := ctx.sig pred - vt.vote
      let derSig := ctx.sigDer pred
      let newV : ℕ → ℚ := fun x =>
        m.V v x - alpha * (err * derSig * tensor_dot_der_v ctx.K m.S m.A m.P a p x)
      let newA : ℕ → ℚ := fun x =>
        m.A a x - alpha * (err * derSig * tensor_dot_der_a ctx.K m.S m.V m.P v p x)
      let newP : ℕ → ℚ := fun x =>
        m.P p x - alpha * (err * derSig * tensor_dot_der_p ctx.K m.S m.V m.A v a x)
      let newS : ℕ → ℕ → ℕ → ℚ := fun x y z =>
        m.S x y z - alpha * (err * derSig * tensor_dot_der_s m.V m.A m.P v a p x y z)
      .ok { m with V := updateRow m.V v newV, A := updateRow m.A a newA,
                   P := updateRow m.P p newP, S := newS }
    | _, _, _, _, _ => .error .key

/-- The vote pass: sequential left-to-right processing of the shuffled vote
    list, each vote seeing the state left by the previous one. -/
def votePass (ctx : Ctx) (alpha : ℚ) : Model → List Vote → Except Err Model
  | m, [] => .ok m
  | m, vt :: rest =>
    match voteStep ctx alpha m vt with
    | .error e => .error e
    | .ok m' => votePass ctx alpha m' rest

/-! ## The rating pass (lines 338-350) -/

/-- Processing of one distinct review inside the rating pass: bilinear
    author-product prediction, then the two symmetric gradient updates,
    both computed from the incoming state (lines 347-348) before being
    written back (lines 349-350). -/
def ratingStep (ctx : Ctx) (alpha : ℚ) (m : Model) (rv : Review) : Except Err Model :=
  match ctx.authorMap rv.author, ctx.productMap rv.product,
        m.authorBias rv.author, m.productBias rv.product with
  | some a, some p, some ab, some pb =>
    let pred := ctx.ratingAvg + ab + pb + ∑ i ∈ Finset.range ctx.K, m.A a i * m.P p i
    let err := ctx.sig pred - rv.rating
    let derSig := ctx.sigDer pred
    let newA : ℕ → ℚ := fun i => m.A a i - alpha * (err * derSig * m.P p i)
    let newP : ℕ → ℚ := fun i => m.P p i - alpha * (err * derSig * m.A a i)
    .ok { m with A := updateRow m.A a newA, P := updateRow m.P p newP }
  | _, _, _, _ => .error .key

/-- The rating pass over the shuffled distinct-review list. -/
def ratingPass (ctx : Ctx) (alpha : ℚ) : Model → List Review → Except Err Model
  | m, [] => .ok m
  | m, rv :: rest =>
    match ratingStep ctx alpha m rv with
    | .error e => .error e
    | .ok m' => ratingPass ctx alpha m' rest

/-! ## Regularization decay (lines 351-363) -/

/-- The per-epoch weight decay `x -= alpha * beta * x` applied to every
    entry of `V`, `A`, `P`, `S`, and, when `_UPDATE_BIAS` holds, to every
    entry of the voter, author and product bias dictionaries (lines
    355-363; `review_bias` is never decayed). -/
def decayStep (ctx : Ctx) (alpha : ℚ) (m : Model) : Model :=
  let m1 : Model := { m with
    V := fun i x => m.V i x - alpha * ctx.beta * m.V i x
    A := fun i x => m.A i x - alpha * ctx.beta * m.A i x
    P := fun i x => m.P i x - alpha * ctx.beta * m.P i x
    S := fun x y z => m.S x y z - alpha * ctx.beta * m.S x y z }
  if ctx.updateBias then
    { m1 with
      voterBias := fun u => (m1.voterBias u).map (fun b => b - alpha * ctx.beta * b)
      authorBias := fun a => (m1.authorBias a).map (fun b => b - alpha * ctx.beta * b)
      productBias := fun p => (m1.productBias p).map (fun b => b - alpha * ctx.beta * b) }
  else m1

/-! ## Objective value (lines 364-405) -/

/-- Squared-error accumulation over the votes (lines 365-375). -/
def sseVotes (ctx : Ctx) (m : Model) : ℚ → List Vote → Except Err ℚ
  | acc, [] => .ok acc
  | acc, vt :: rest =>
    match assocLookup ctx.reviewsL vt.review with
    | none => .error .key
    | some rev =>
      match ctx.voterMap vt.voter, ctx.authorMap vt.author,
            ctx.productMap rev.product,
            m.voterBias vt.voter, m.reviewBias vt.review with
      | some v, some a, some p, some vb, some rb =>
        let pred := ctx.overallMean + vb + rb + tensor_dot ctx.K m.S m.V m.A m.P v a p
        sseVotes ctx m (acc + (vt.vote - ctx.sig pred) ^ 2) rest
      | _, _, _, _, _ => .error .key

/-- Squared-error accumulation over the distinct reviews (lines 376-383). -/
def sseRevs (ctx : Ctx) (m : Model) : ℚ → List Review → Except Err ℚ
  | acc, [] => .ok acc
  | acc, rv :: rest =>
    match ctx.authorMap rv.author, ctx.productMap rv.product,
          m.authorBias rv.author, m.productBias rv.product with
    | some a, some p, some ab, some pb =>
      let pred := ctx.ratingAvg + ab + pb + ∑ i ∈ Finset.range ctx.K, m.A a i * m.P p i
      sseRevs ctx m (acc + (rv.rating - ctx.sig pred) ^ 2) rest
    | _, _, _, _ => .error .key

/-- The full sum of squared errors over all votes and all distinct reviews
    (the value the source calls `sse` on line 384). -/
def sseValue (ctx : Ctx) (m : Model) : Except Err ℚ :=
  match sseVotes ctx m 0 ctx.votes with
  | .error e => .error e
  | .ok s => sseRevs ctx m s ctx.revs

/-- The regularization contribution of the factor matrices and the core
    tensor: `beta * entry ** 2` summed over every entry of `V`, `A`, `P`
    (rows indexed by the values of the entity maps) and `S`
    (lines 385-397). -/
def regMatrices (ctx : Ctx) (m : Model) : ℚ :=
  ((List.range ctx.distinctVoters.length).map (fun v =>
      ∑ i ∈ Finset.range ctx.K, ctx.beta * m.V v i ^ 2)).sum +
  ((List.range ctx.distinctAuthors.length).map (fun a =>
      ∑ i ∈ Finset.range ctx.K, ctx.beta * m.A a i ^ 2)).sum +
  ((List.range ctx.distinctProducts.length).map (fun p =>
      ∑ i ∈ Finset.range ctx.K, ctx.beta * m.P p i ^ 2)).sum +
  ∑ i ∈ Finset.range ctx.K, ∑ j ∈ Finset.range ctx.K, ∑ k ∈ Finset.range ctx.K,
    ctx.beta * m.S i j k ^ 2

/-- The regularization contribution of the bias dictionaries, only added in
    dynamic-bias mode (lines 398-404).  The key sets iterated by the source
    are the distinct vote voters (`voter_bias`) and the distinct authors and
    products of the full review dictionary (`author_bias`, `product_bias`);
    every such key is present in its dictionary, so the lookups are written
    with `getD`. -/
def regBiases (ctx : Ctx) (m : Model) : ℚ :=
  (ctx.distinctVoters.map (fun u => ctx.beta * ((m.voterBias u).getD 0) ^ 2)).sum +
  (((ctx.reviewsL.map (·.2.author)).dedup).map
      (fun a => ctx.beta * ((m.authorBias a).getD 0) ^ 2)).sum +
  (((ctx.reviewsL.map (·.2.product)).dedup).map
      (fun p => ctx.beta * ((m.productBias p).getD 0) ^ 2)).sum

/-- All regularization terms added to `value` (lines 385-404). -/
def regValue (ctx : Ctx) (m : Model) : ℚ :=
  regMatrices ctx m + if ctx.updateBias then regBiases ctx m else 0

/-- The objective `value` whose delta drives the convergence check
    (lines 364-405): the squared-error accumulation, then the
    regularization terms, then `value /= 2.0` (line 405) applied to the
    whole accumulated sum. -/
def objectiveValue (ctx : Ctx) (m : Model) : Except Err ℚ :=
  match sseValue ctx m with
  | .error e => .error e
  | .ok s => .ok ((s + regValue ctx m) / 2)

/-- The convergence test `abs(previous - value) < _TOL` (line 408);
    `previous` is `none` on the first epoch, standing for `float('inf')`,
    and the comparison is then false for any finite tolerance. -/
def convCheck (prev : Option ℚ) (value tol : ℚ) : Bool :=
  match prev with
  | none => false
  | some p => decide (|p - value| < tol)

/-! ## The epoch loop of `fit` (lines 309-411) -/

/-- Ghost record of one executed epoch: the learning rate used for its vote
    pass, rating pass and decay; the vote and review processing orders it
    iterated; the `previous` objective it compared against; and the
    objective `value` it computed.  The record only observes the loop, it
    feeds nothing back into it. -/
structure EpochLog where
  alpha : ℚ
  order : List Vote
  revOrder : List Review
  prevObj : Option ℚ
  value : ℚ

/-- The epoch loop `for it in xrange(_ITER)` (lines 311-411), with the
    remaining iteration count as first argument (`fuel + it = _ITER`).
    Per epoch: divide the carried learning rate by `sqrt(it+1)` (line 312),
    run the vote pass (314-337) and the rating pass (338-350) in the fixed
    shuffled orders `ctx.votes`, `ctx.revs`, apply the regularization decay
    (351-363), compute the objective `value` (364-405), and break when
    `abs(previous - value) < _TOL` (408-410), otherwise continue with
    `previous = value` (411). -/
def fitLoop (ctx : Ctx) : ℕ → ℕ → ℚ → Option ℚ → Model →
    Except Err (Model × List EpochLog)
  | 0, _, _, _, m => .ok (m, [])
  | fuel + 1, it, alphaIn, prev, m =>
    let alpha := alphaIn / ctx.sqrtFn (it + 1)
    match votePass ctx alpha m ctx.votes with
    | .error e => .error e
    | .ok m1 =>
      match ratingPass ctx alpha m1 ctx.revs with
      | .error e => .error e
      | .ok m2 =>
        let m3 := decayStep ctx alpha m2
        match objectiveValue ctx m3 with
        | .error e => .error e
        | .ok value =>
          let log : EpochLog := ⟨alpha, ctx.votes, ctx.revs, prev, value⟩
          if convCheck prev value ctx.tol then .ok (m3, [log])
          else
            match fitLoop ctx fuel (it + 1) alpha (some value) m3 with
            | .error e => .error e
            | .ok (mF, logs) => .ok (mF, log :: logs)

/-! ## Configuration globals and `load_args` (lines 40-87) -/

/-- The module-level configuration variables `_K`, `_ALPHA`, `_BETA`,
    `_TOL`, `_ITER`, `_BIAS`, `_UPDATE_BIAS`. -/
structure Globals where
  k : ℤ
  alpha : ℚ
  beta : ℚ
  tol : ℚ
  iter : ℤ
  bias : String
  updateBias : Bool
  deriving Repr

/-- The default values assigned at lines 40-46. -/
def defaultGlobals : Globals :=
  { k := 5
    alpha := 1
    beta := 1/10
    tol := 1/1000000
    iter := 10
    bias := "s"
    updateBias := false }

/-- The `while` loop of `load_args` (lines 61-87), processing `argv` two
    entries at a time from index 1.  `pInt` and `pFloat` model the Python
    `int(...)` and `float(...)` conversions (`none` = `ValueError`).
    `none` overall means `load_args` does not return normally: an
    `IndexError` reading `argv[i+1]`, a conversion error, or the
    usage-message `exit()` branch (lines 82-86).  A trailing lone flag
    yields `none` whatever it is: a recognized flag raises `IndexError`
    reading its missing argument, an unrecognized one hits the usage
    branch. -/
def loadArgsAux (pInt : String → Option ℤ) (pFloat : String → Option ℚ) :
    Globals → List String → Option Globals
  | g, [] => some g
  | _, [_] => none
  | g, flag :: x :: rs =>
    if flag = "-k" then
      match pInt x with
      | none => none
      | some n => loadArgsAux pInt pFloat { g with k := n } rs
    else if flag = "-l" then
      match pFloat x with
      | none => none
      | some q => loadArgsAux pInt pFloat { g with alpha := q } rs
    else if flag = "-r" then
      match pFloat x with
      | none => none
      | some q => loadArgsAux pInt pFloat { g with beta := q } rs
    else if flag = "-e" then
      match pFloat x with
      | none => none
      | some q => loadArgsAux pInt pFloat { g with tol := q } rs
    else if flag = "-i" then
      match pInt x with
      | none => none
      | some n => loadArgsAux pInt pFloat { g with iter := n } rs
    else if flag = "-b" then
      if x = "s" ∨ x = "d" then
        -- Line 81 assigns `_UPDATE_BIAS` without a `global _UPDATE_BIAS`
        -- declaration (the surrounding `global` on line 79 names only
        -- `_BIAS`), so Python binds a function-local variable there and
        -- the module-level `_UPDATE_BIAS` is left unchanged; only the
        -- `bias` field is updated here.
        loadArgsAux pInt pFloat { g with bias := x } rs
      else none
    else none

/-- `load_args()` (lines 52-87): starts at `i = 1`, so the head of `argv`
    (the program name) is skipped, and updates the defaults. -/
def load_args (pInt : String → Option ℤ) (pFloat : String → Option ℚ)
    (argv : List String) : Option Globals :=
  loadArgsAux pInt pFloat defaultGlobals (argv.drop 1)

/-! ## `fit` (lines 290-411) -/

/-- The products referenced by the votes, in vote order:
    `[reviews[v['review']]['product'] for v in votes]` (line 132),
    raising on a review id absent from the review dictionary. -/
def resolveProducts (reviewsL : List (ℕ × Review)) : List Vote → Except Err (List ℕ)
  | [] => .ok []
  | vt :: rest =>
    match assocLookup reviewsL vt.review with
    | none => .error .key
    | some rev =>
      match resolveProducts reviewsL rest with
      | .error e => .error e
      | .ok ps => .ok (rev.product :: ps)

/-- `[reviews_dict[r_id] for r_id in reviews]` (line 307): the review
    records for a list of review ids. -/
def resolveReviews (reviewsL : List (ℕ × Review)) : List ℕ → Except Err (List Review)
  | [] => .ok []
  | r :: rest =>
    match assocLookup reviewsL r with
    | none => .error .key
    | some rev =>
      match resolveReviews reviewsL rest with
      | .error e => .error e
      | .ok rs => .ok (rev :: rs)

/-- What `fit` leaves behind: the fixed context (entity maps, orders,
    means), the final mutable state, and the ghost trace of the executed
    epochs. -/
structure FitResult where
  ctx : Ctx
  model : Model
  trace : List EpochLog

/-- Packaging of the epoch loop's outcome into the fit result (the tail
    of `fit`): an error propagates, a normal return carries the fixed
    context, the final state and the epoch trace. -/
def finishFit (ctx : Ctx) (res : Except Err (Model × List EpochLog)) :
    Except Err FitResult :=
  match res with
  | .error e => .error e
  | .ok (m, logs) => .ok ⟨ctx, m, logs⟩

/-- `BETF_Model.fit(votes, reviews_dict)` (lines 290-411).

    Parameters standing for the external library functions: `sig`,
    `sigDer` (`util.aux.sigmoid`, `util.aux.sigmoid_der1`), `sqrtFn`
    (`math.sqrt`, applied only to `it+1`), the random initial factor
    values `initV`, `initA`, `initP`, `initS` (`numpy.random.uniform`),
    and the two `random.shuffle` calls `shufV` (line 305), `shufR`
    (line 308) — each consulted exactly once, before the epoch loop.

    Steps, in source order: `_initialize_matrices` (products resolved per
    vote, line 132, then `overall_mean`, line 141, raising on an empty vote
    list), `_calculate_vote_bias`, `_calculate_rating_bias` (raising on an
    empty review dictionary, line 180), the shuffles and the distinct-review
    list (lines 304-308), then the epoch loop. -/
def fit (sig sigDer : ℚ → ℚ) (sqrtFn : ℕ → ℚ) (g : Globals)
    (initV initA initP : ℕ → ℕ → ℚ) (initS : ℕ → ℕ → ℕ → ℚ)
    (shufV : List Vote → List Vote) (shufR : List Review → List Review)
    (votes : List Vote) (reviewsL : List (ℕ × Review)) : Except Err FitResult :=
  let distinctVoters := (votes.map (·.voter)).dedup
  let distinctAuthors := (votes.map (·.author)).dedup
  match resolveProducts reviewsL votes with
  | .error e => .error e
  | .ok prods =>
    let distinctProducts := prods.dedup
    if votes.length = 0 then .error .div
    else
      let overallMean := (votes.map (·.vote)).sum / (votes.length : ℚ)
      let vb := voterBiasOf overallMean votes
      let rb := reviewBiasOf overallMean votes
      if reviewsL.length = 0 then .error .div
      else
        let ratingAvg := (reviewsL.map (·.2.rating)).sum / (reviewsL.length : ℚ)
        let ab := authorBiasOf ratingAvg (reviewsL.map (·.2))
        let pb := productBiasOf ratingAvg (reviewsL.map (·.2))
        let votesSh := shufV votes
        match resolveReviews reviewsL ((votesSh.map (·.review)).dedup) with
        | .error e => .error e
        | .ok revRecs =>
          let ctx : Ctx := {
            K := g.k.toNat
            beta := g.beta
            tol := g.tol
            updateBias := g.updateBias
            sig := sig
            sigDer := sigDer
            sqrtFn := sqrtFn
            reviewsL := reviewsL
            votes := votesSh
            revs := shufR revRecs
            distinctVoters := distinctVoters
            distinctAuthors := distinctAuthors
            distinctProducts := distinctProducts
            overallMean := overallMean
            ratingAvg := ratingAvg }
          let m0 : Model := {
            V := initV
            A := initA
            P := initP
            S := initS
            voterBias := vb
            reviewBias := rb
            authorBias := ab
            productBias := pb }
          finishFit ctx (fitLoop ctx g.iter.toNat 0 g.alpha none m0)

/-! ## `predict` (lines 422-465) -/

/-- The loop body of `predict` over the vote batch (lines 434-463).
    For each vote: resolve the product through the supplied review
    dictionary (line 438, raising `KeyError` on a missing review id), then
    resolve the three entity indices with `-1` sentinels; if all three
    resolve and the review id has a known review bias (line 443), append
    the sigmoid prediction, else append `overall_mean` and count one
    cold start.  Returns the prediction list and the cold-start count. -/
def predictAux (sig : ℚ → ℚ) (K : ℕ)
    (voterMap authorMap productMap : ℕ → Option ℕ)
    (m : Model) (overallMean : ℚ) (reviewsL : List (ℕ × Review)) :
    List Vote → Except Err (List ℚ × ℕ)
  | [] => .ok ([], 0)
  | vt :: rest =>
    match assocLookup reviewsL vt.review with
    | none => .error .key
    | some rev =>
      match voterMap vt.voter, authorMap vt.author, productMap rev.product,
            m.reviewBias vt.review with
      | some v, some a, some p, some rb =>
        match m.voterBias vt.voter with
        | none => .error .key
        | some vb =>
          let pr := overallMean + vb + rb + tensor_dot K m.S m.V m.A m.P v a p
          match predictAux sig K voterMap authorMap productMap m overallMean
              reviewsL rest with
          | .error e => .error e
          | .ok (ps, c) => .ok (sig pr :: ps, c)
      | _, _, _, _ =>
        match predictAux sig K voterMap authorMap productMap m overallMean
            reviewsL rest with
        | .error e => .error e
        | .ok (ps, c) => .ok (overallMean :: ps, c + 1)

/-- `BETF_Model.predict(votes, reviews)` (lines 422-465). -/
def predict (sig : ℚ → ℚ) (K : ℕ)
    (voterMap authorMap productMap : ℕ → Option ℕ)
    (m : Model) (overallMean : ℚ) (reviewsL : List (ℕ × Review))
    (votes : List Vote) : Except Err (List ℚ × ℕ) :=
  predictAux sig K voterMap authorMap productMap m overallMean reviewsL votes

/-- `e.isOk`: whether an embedded computation returned normally. -/
def exceptOk : Except Err α → Bool
  | .ok _ => true
  | .error _ => false

/-! ## Definitions taken from the specification's wording

The following definitions are not translations of the source; they state
what the specification says, for comparison against the source-derived
definitions above. -/

/-- Modelled from the spec, §4.5 step 3: the four gradient updates for one
    vote are all computed from the factor state as it stood before any of
    the updates for that vote is applied, and then installed together.
    (`error * der_sig` is one shared coefficient here; the source writes
    `alpha * (error * der_sig * derivative)` per factor.) -/
def voteStepSpec (ctx : Ctx) (alpha : ℚ) (m : Model) (vt : Vote) :
    Except Err Model :=
  match assocLookup ctx.reviewsL vt.review with
  | none => .error .key
  | some rev =>
    match ctx.voterMap vt.voter, ctx.authorMap vt.author,
          ctx.productMap rev.product,
          m.voterBias vt.voter, m.reviewBias vt.review with
    | some v, some a, some p, some vb, some rb =>
      let pred := ctx.overallMean + vb + rb + tensor_dot ctx.K m.S m.V m.A m.P v a p
      let coeff := (ctx.sig pred - vt.vote) * ctx.sigDer pred
      .ok { V := updateRow m.V v (fun x =>
              m.V v x - alpha * coeff * tensor_dot_der_v ctx.K m.S m.A m.P a p x)
            A := updateRow m.A a (fun x =>
              m.A a x - alpha * coeff * tensor_dot_der_a ctx.K m.S m.V m.P v p x)
            P := updateRow m.P p (fun x =>
              m.P p x - alpha * coeff * tensor_dot_der_p ctx.K m.S m.V m.A v a x)
            S := fun x y z =>
              m.S x y z - alpha * coeff * tensor_dot_der_s m.V m.A m.P v a p x y z
            voterBias := m.voterBias
            reviewBias := m.reviewBias
            authorBias := m.authorBias
            productBias := m.productBias }
    | _, _, _, _, _ => .error .key

/-- Modelled from the spec, §4.5 step 2 ("Shuffle the vote list (fresh
    random order each epoch)"): given a supply of per-epoch shuffles, the
    vote order a fresh-shuffling implementation would process in epoch
    `it`. -/
def specEpochVoteOrder (shufs : ℕ → List Vote → List Vote)
    (votes : List Vote) (it : ℕ) : List Vote :=
  shufs it votes

/-- The plain (unweighted) sum of squares of every entry of `V`, `A`, `P`,
    `S` and, in dynamic-bias mode, of every bias value — the quantity the
    spec's objective formula weights by `beta/2`. -/
def squaresSum (ctx : Ctx) (m : Model) : ℚ :=
  ((List.range ctx.distinctVoters.length).map (fun v =>
      ∑ i ∈ Finset.range ctx.K, m.V v i ^ 2)).sum +
  ((List.range ctx.distinctAuthors.length).map (fun a =>
      ∑ i ∈ Finset.range ctx.K, m.A a i ^ 2)).sum +
  ((List.range ctx.distinctProducts.length).map (fun p =>
      ∑ i ∈ Finset.range ctx.K, m.P p i ^ 2)).sum +
  (∑ i ∈ Finset.range ctx.K, ∑ j ∈ Finset.range ctx.K, ∑ k ∈ Finset.range ctx.K,
    m.S i j k ^ 2) +
  (if ctx.updateBias then
    (ctx.distinctVoters.map (fun u => ((m.voterBias u).getD 0) ^ 2)).sum +
    (((ctx.reviewsL.map (·.2.author)).dedup).map
        (fun a => ((m.authorBias a).getD 0) ^ 2)).sum +
    (((ctx.reviewsL.map (·.2.product)).dedup).map
        (fun p => ((m.productBias p).getD 0) ^ 2)).sum
   else 0)

/-- Modelled from the spec, §4.5 step 6: "the full objective value = (sum
    of squared errors over all votes and all reviews ...) + beta/2 · (sum
    of squares of every entry in V, A, P, S, and — if dynamic-bias — every
    bias value)", with the sum of squared errors NOT halved. -/
def specObjective (ctx : Ctx) (m : Model) : Except Err ℚ :=
  match sseValue ctx m with
  | .error e => .error e
  | .ok s => .ok (s + ctx.beta / 2 * squaresSum ctx m)

/-- The cold-start test of `predict` (line 443), as a Boolean on one vote:
    true when the voter, author or product is unknown to the entity maps
    or the review id has no review bias. (The `none` review case cannot
    arise under the hypothesis that every vote's review id is in the
    supplied review dictionary.) -/
def coldStartB (voterMap authorMap productMap : ℕ → Option ℕ)
    (reviewBias : ℕ → Option ℚ) (reviewsL : List (ℕ × Review))
    (vt : Vote) : Bool :=
  match assocLookup reviewsL vt.review with
  | none => true
  | some rev =>
    !((voterMap vt.voter).isSome && (authorMap vt.author).isSome &&
      (productMap rev.product).isSome && (reviewBias vt.review).isSome)

/-- The prediction `predict` produces for one vote: `overall_mean` exactly
    on any cold-start condition, otherwise the sigmoid of the biased
    tensor score. -/
def predOne (sig : ℚ → ℚ) (K : ℕ)
    (voterMap authorMap productMap : ℕ → Option ℕ)
    (m : Model) (overallMean : ℚ) (reviewsL : List (ℕ × Review))
    (vt : Vote) : ℚ :=
  match assocLookup reviewsL vt.review with
  | none => overallMean
  | some rev =>
    match voterMap vt.voter, authorMap vt.author, productMap rev.product,
          m.reviewBias vt.review with
    | some v, some a, some p, some rb =>
      sig (overallMean + (m.voterBias vt.voter).getD 0 + rb +
        tensor_dot K m.S m.V m.A m.P v a p)
    | _, _, _, _ => overallMean

/-- The three conditions under which `fit` returns normally: a nonempty
    training vote list, every vote's review id present in the review
    dictionary, and every such review's author also the author field of
    some training vote (so that the rating pass can resolve it in
    `author_map`). -/
def FitOkCond (votes : List Vote) (reviewsL : List (ℕ × Review)) : Prop :=
  votes ≠ [] ∧
  ∀ vt ∈ votes, ∃ rev, assocLookup reviewsL vt.review = some rev ∧
    rev.author ∈ votes.map (·.author)

/-! ## Concrete inputs used by witnesses and counterexamples -/

/-- All-zero initial factor matrices (a possible draw of `uniform`). -/
def zeroFun2 : ℕ → ℕ → ℚ := fun _ _ => 0

/-- All-zero initial core tensor. -/
def zeroFun3 : ℕ → ℕ → ℕ → ℚ := fun _ _ _ => 0

/-- A concrete stand-in for `math.sqrt` on small integers; only the
    multiplicative structure of the schedule matters to the claims. -/
def sqrtA : ℕ → ℚ := fun n => (n : ℚ)

/-- Input A: one vote by voter 10 on review 30 written by author 20. -/
def vA : Vote := ⟨10, 20, 30, 1⟩

/-- Input A: review 30, author 20, product 40. -/
def rA : Review := ⟨20, 40, 1⟩

/-- Input A configuration: K = 1, base rate 6, no regularization,
    tolerance 0, three epochs, static bias. -/
def gA : Globals :=
  { k := 1
    alpha := 6
    beta := 0
    tol := 0
    iter := 3
    bias := "s"
    updateBias := false }

/-- Input A run: constant-zero sigmoid and derivative (so factors never
    move), identity shuffles, all-zero initial factors. -/
def fitA : Except Err FitResult :=
  fit (fun _ => 0) (fun _ => 0) sqrtA gA zeroFun2 zeroFun2 zeroFun2 zeroFun3
    id id [vA] [(30, rA)]

/-- Input B: two votes on the same review by different voters. -/
def vB1 : Vote := ⟨10, 20, 30, 1⟩

/-- Input B, second vote. -/
def vB2 : Vote := ⟨11, 20, 30, 1⟩

/-- Input B configuration: two epochs, tolerance 0. -/
def gB : Globals :=
  { k := 1
    alpha := 1
    beta := 0
    tol := 0
    iter := 2
    bias := "s"
    updateBias := false }

/-- Input B run: the single pre-loop vote shuffle reverses the list. -/
def fitB : Except Err FitResult :=
  fit (fun _ => 0) (fun _ => 0) sqrtA gB zeroFun2 zeroFun2 zeroFun2 zeroFun3
    (fun l => l.reverse) id [vB1, vB2] [(30, rA)]

/-- Input B: a supply of genuinely fresh per-epoch shuffles (identity in
    epoch 0, reversal afterwards). -/
def shufsB : ℕ → List Vote → List Vote := fun it l => if it = 0 then l else l.reverse

/-- Input C: same vote as input A ... -/
def vC : Vote := ⟨10, 20, 30, 1⟩

/-- ... but review 30 is attributed to author 9, who authored no vote. -/
def rC : Review := ⟨9, 40, 1⟩

/-- Input C run: nonempty votes, every review id resolvable, yet `fit`
    aborts in the rating pass of the first epoch. -/
def fitC : Except Err FitResult :=
  fit (fun _ => 0) (fun _ => 0) sqrtA gA zeroFun2 zeroFun2 zeroFun2 zeroFun3
    id id [vC] [(30, rC)]

/-- Prediction-time voter map of the concrete fitted model. -/
def voterMapC : ℕ → Option ℕ := fun u => if u = 10 then some 0 else none

/-- Prediction-time author map. -/
def authorMapC : ℕ → Option ℕ := fun a => if a = 20 then some 0 else none

/-- Prediction-time product map. -/
def productMapC : ℕ → Option ℕ := fun p => if p = 40 then some 0 else none

/-- A concrete fitted model for the predictor claims: constant factor
    entries 1/2, core tensor 1, voter bias 1/4 for voter 10, review bias
    1/8 for review 30. -/
def modelC : Model :=
  { V := fun _ _ => 1/2
    A := fun _ _ => 1/2
    P := fun _ _ => 1/2
    S := fun _ _ _ => 1
    voterBias := fun u => if u = 10 then some (1/4) else none
    reviewBias := fun x => if x = 30 then some (1/8) else none
    authorBias := fun _ => none
    productBias := fun _ => none }

/-- Predictor batch: one cold-start vote (voter 99 unseen) and one fully
    resolvable vote. -/
def votesC6 : List Vote := [⟨99, 20, 30, 1⟩, ⟨10, 20, 30, 1⟩]

/-- Predictor review dictionary containing review 30. -/
def reviewsC6 : List (ℕ × Review) := [(30, ⟨20, 40, 1⟩)]

/-- Predictor batch whose vote references review 31, absent from
    `reviewsC6`. -/
def votesC7 : List Vote := [⟨10, 20, 31, 1⟩]

/-! # Theorems -/

theorem exceptOk_exists {e : Except Err α} (h : exceptOk e = true) :
    ∃ x, e = .ok x := by
  cases e with
  | ok x => exact ⟨x, rfl⟩
  | error er => simp [exceptOk] at h

/-! ## Claim C5: per-vote gradient updates use pre-update state -/

theorem voteStep_eq_spec (ctx : Ctx) (alpha : ℚ) (m : Model) (vt : Vote) :
    voteStep ctx alpha m vt = voteStepSpec ctx alpha m vt := by
  cases h0 : assocLookup ctx.reviewsL vt.review with
  | none => simp only [voteStep, voteStepSpec, h0]
  | some rev =>
    cases h1 : ctx.voterMap vt.voter with
    | none => simp only [voteStep, voteStepSpec, h0, h1]
    | some v =>
      cases h2 : ctx.authorMap vt.author with
      | none => simp only [voteStep, voteStepSpec, h0, h1, h2]
      | some a =>
        cases h3 : ctx.productMap rev.product with
        | none => simp only [voteStep, voteStepSpec, h0, h1, h2, h3]
        | some p =>
          cases h4 : m.voterBias vt.voter with
          | none => simp only [voteStep, voteStepSpec, h0, h1, h2, h3, h4]
          | some vb =>
            cases h5 : m.reviewBias vt.review with
            | none => simp only [voteStep, voteStepSpec, h0, h1, h2, h3, h4, h5]
            | some rb =>
              simp only [voteStep, voteStepSpec, h0, h1, h2, h3, h4, h5,
                Except.ok.injEq, Model.mk.injEq]
              refine ⟨?_, ?_, ?_, ?_, trivial, trivial, trivial, trivial⟩
              · funext i x; simp only [updateRow]; split <;> ring
              · funext i x; simp only [updateRow]; split <;> ring
              · funext i x; simp only [updateRow]; split <;> ring
              · funext x y z; ring

/-- C5: within the vote pass, the four updates to `V[v,:]`, `A[a,:]`,
    `P[p,:]` and `S` for a single vote are all computed from the factor
    state as it stood before any of them is applied (first conjunct: the
    source step equals the spec-modelled simultaneous-update step), and
    the updated state is what the next vote of the same epoch processes
    (second conjunct: the pass threads each step's output into the next). -/
theorem claim_C5_pre_update_gradients :
    (∀ ctx alpha m vt, voteStep ctx alpha m vt = voteStepSpec ctx alpha m vt) ∧
    (∀ ctx alpha m vt rest,
      votePass ctx alpha m (vt :: rest) =
        match voteStep ctx alpha m vt with
        | .error e => .error e
        | .ok m2 => votePass ctx alpha m2 rest) :=
  ⟨fun ctx alpha m vt => voteStep_eq_spec ctx alpha m vt,
   fun _ _ _ _ _ => rfl⟩

/-! ## Claims C6 and C7: the predictor -/

theorem predictAux_char (sig : ℚ → ℚ) (K : ℕ)
    (vM aM pM : ℕ → Option ℕ) (m : Model) (mean : ℚ)
    (reviewsL : List (ℕ × Review)) (votes : List Vote)
    (h1 : ∀ vt ∈ votes, (assocLookup reviewsL vt.review).isSome = true)
    (h2 : ∀ vt ∈ votes, (vM vt.voter).isSome = true →
      (m.voterBias vt.voter).isSome = true) :
    predictAux sig K vM aM pM m mean reviewsL votes =
      .ok (votes.map (predOne sig K vM aM pM m mean reviewsL),
           votes.countP (coldStartB vM aM pM m.reviewBias reviewsL)) := by
  induction votes with
  | nil => rfl
  | cons vt rest ih =>
    have hh1 := h1 vt (by simp)
    obtain ⟨rev, hrev⟩ := Option.isSome_iff_exists.1 hh1
    have ihe := ih (fun w hw => h1 w (by simp [hw])) (fun w hw => h2 w (by simp [hw]))
    rcases hv : vM vt.voter with _ | v
    · simp [predictAux, predOne, coldStartB, hrev, hv, ihe, List.countP_cons]
    · rcases ha : aM vt.author with _ | a
      · simp [predictAux, predOne, coldStartB, hrev, hv, ha, ihe, List.countP_cons]
      · rcases hp : pM rev.product with _ | p
        · simp [predictAux, predOne, coldStartB, hrev, hv, ha, hp, ihe, List.countP_cons]
        · rcases hrb : m.reviewBias vt.review with _ | rb
          · simp [predictAux, predOne, coldStartB, hrev, hv, ha, hp, hrb, ihe,
              List.countP_cons]
          · have hvb := h2 vt (by simp) (by simp [hv])
            obtain ⟨vb, hvbe⟩ := Option.isSome_iff_exists.1 hvb
            simp [predictAux, predOne, coldStartB, hrev, hv, ha, hp, hrb, hvbe, ihe,
              List.countP_cons]

/-- C6: for every vote in a predict batch whose review id resolves in the
    supplied review dictionary, `predict` raises nothing and returns
    exactly `overall_mean` (no sigmoid) when the voter, author or product
    is unseen or the review id has no review bias, and
    `sigmoid(overall_mean + voter_bias + review_bias + score)` otherwise;
    the returned counter counts exactly the fallback votes (the reported
    cold-start ratio is this counter over the batch size). -/
theorem claim_C6_cold_start (sig : ℚ → ℚ) (K : ℕ)
    (vM aM pM : ℕ → Option ℕ) (m : Model) (mean : ℚ)
    (reviewsL : List (ℕ × Review)) (votes : List Vote)
    (h1 : ∀ vt ∈ votes, (assocLookup reviewsL vt.review).isSome = true)
    (h2 : ∀ vt ∈ votes, (vM vt.voter).isSome = true →
      (m.voterBias vt.voter).isSome = true) :
    predict sig K vM aM pM m mean reviewsL votes =
      .ok (votes.map (predOne sig K vM aM pM m mean reviewsL),
           votes.countP (coldStartB vM aM pM m.reviewBias reviewsL)) :=
  predictAux_char sig K vM aM pM m mean reviewsL votes h1 h2

/-- Witness for C6 at a concrete input: a batch of one cold-start vote
    (voter 99 unseen) and one fully resolvable vote; the cold one gets the
    raw overall mean 3/5, the warm one gets
    `sig(3/5 + 1/4 + 1/8 + 1/8) = 11/10`, and one cold start is counted. -/
theorem claim_C6_cold_start_witness :
    predict (fun x => x) 1 voterMapC authorMapC productMapC modelC (3/5)
        reviewsC6 votesC6 = .ok ([3/5, 11/10], 1) := by
  have h := claim_C6_cold_start (fun x => x) 1 voterMapC authorMapC productMapC
    modelC (3/5) reviewsC6 votesC6 (by decide) (by decide)
  rw [h]
  norm_num [predOne, coldStartB, votesC6, reviewsC6, voterMapC, authorMapC,
    productMapC, modelC, assocLookup, tensor_dot, Finset.sum_range_succ]

theorem predictAux_err_key (sig : ℚ → ℚ) (K : ℕ)
    (vM aM pM : ℕ → Option ℕ) (m : Model) (mean : ℚ)
    (reviewsL : List (ℕ × Review)) :
    ∀ votes : List Vote, (∃ vt ∈ votes, assocLookup reviewsL vt.review = none) →
      predictAux sig K vM aM pM m mean reviewsL votes = .error .key := by
  intro votes
  induction votes with
  | nil => rintro ⟨vt, h, -⟩; simp at h
  | cons vt rest ih =>
    rintro ⟨w, hw, hnone⟩
    rcases List.mem_cons.1 hw with rfl | hwrest
    · simp [predictAux, hnone]
    · cases hrev : assocLookup reviewsL vt.review with
      | none => simp [predictAux, hrev]
      | some rev =>
        have ihe := ih ⟨w, hwrest, hnone⟩
        rcases hv : vM vt.voter with _ | v <;>
        rcases ha : aM vt.author with _ | a <;>
        rcases hp : pM rev.product with _ | p <;>
        rcases hrb : m.reviewBias vt.review with _ | rb <;>
        rcases hvb : m.voterBias vt.voter with _ | vb <;>
          simp [predictAux, hrev, hv, ha, hp, hrb, hvb, ihe]

/-- C7: `predict` resolves each vote's product through the supplied review
    dictionary before the cold-start test, so a batch containing any vote
    whose review id is absent from that dictionary makes the whole call
    raise `KeyError` instead of falling back to the overall mean; the
    cold-start path only covers votes whose review id is present. -/
theorem claim_C7_missing_review_raises (sig : ℚ → ℚ) (K : ℕ)
    (vM aM pM : ℕ → Option ℕ) (m : Model) (mean : ℚ)
    (reviewsL : List (ℕ × Review)) (votes : List Vote)
    (h : ∃ vt ∈ votes, assocLookup reviewsL vt.review = none) :
    predict sig K vM aM pM m mean reviewsL votes = .error .key :=
  predictAux_err_key sig K vM aM pM m mean reviewsL votes h

/-- Witness for C7 at a concrete input: the batch's only vote references
    review 31, which `reviewsC6` does not contain, and `predict` raises
    `KeyError` even though the voter is also unseen (a would-be cold
    start). -/
theorem claim_C7_missing_review_raises_witness :
    predict (fun x => x) 1 voterMapC authorMapC productMapC modelC (3/5)
        reviewsC6 votesC7 = .error .key :=
  claim_C7_missing_review_raises (fun x => x) 1 voterMapC authorMapC productMapC
    modelC (3/5) reviewsC6 votesC7
    ⟨⟨10, 20, 31, 1⟩, by simp [votesC7], by simp [assocLookup, reviewsC6]⟩

/-! ## Structure of the epoch loop -/

theorem fitLoop_succ_inv (ctx : Ctx) (fuel it : ℕ) (alphaIn : ℚ)
    (prev : Option ℚ) (m mF : Model) (logs : List EpochLog)
    (h : fitLoop ctx (fuel + 1) it alphaIn prev m = .ok (mF, logs)) :
    ∃ m1 m2 value logs',
      votePass ctx (alphaIn / ctx.sqrtFn (it + 1)) m ctx.votes = .ok m1 ∧
      ratingPass ctx (alphaIn / ctx.sqrtFn (it + 1)) m1 ctx.revs = .ok m2 ∧
      objectiveValue ctx (decayStep ctx (alphaIn / ctx.sqrtFn (it + 1)) m2) =
        .ok value ∧
      logs = ⟨alphaIn / ctx.sqrtFn (it + 1), ctx.votes, ctx.revs, prev, value⟩
        :: logs' ∧
      ((convCheck prev value ctx.tol = true ∧ logs' = [] ∧
          mF = decayStep ctx (alphaIn / ctx.sqrtFn (it + 1)) m2) ∨
       (convCheck prev value ctx.tol = false ∧
          fitLoop ctx fuel (it + 1) (alphaIn / ctx.sqrtFn (it + 1)) (some value)
            (decayStep ctx (alphaIn / ctx.sqrtFn (it + 1)) m2) = .ok (mF, logs'))) := by
  simp only [fitLoop] at h
  rcases hvp : votePass ctx (alphaIn / ctx.sqrtFn (it + 1)) m ctx.votes with e | m1
  · simp only [hvp] at h
    exact Except.noConfusion h
  · simp only [hvp] at h
    rcases hrp : ratingPass ctx (alphaIn / ctx.sqrtFn (it + 1)) m1 ctx.revs with e | m2
    · simp only [hrp] at h
      exact Except.noConfusion h
    · simp only [hrp] at h
      rcases hov : objectiveValue ctx
          (decayStep ctx (alphaIn / ctx.sqrtFn (it + 1)) m2) with e | value
      · simp only [hov] at h
        exact Except.noConfusion h
      · simp only [hov] at h
        cases hcv : convCheck prev value ctx.tol
        · simp only [hcv, Bool.false_eq_true, if_false] at h
          rcases hrec : fitLoop ctx fuel (it + 1) (alphaIn / ctx.sqrtFn (it + 1))
              (some value) (decayStep ctx (alphaIn / ctx.sqrtFn (it + 1)) m2)
              with e | pr
          · simp only [hrec] at h
            exact Except.noConfusion h
          · obtain ⟨mF', logs''⟩ := pr
            simp only [hrec, Except.ok.injEq, Prod.mk.injEq] at h
            obtain ⟨hm, hl⟩ := h
            exact ⟨m1, m2, value, logs'', rfl, hrp, hov, hl.symm,
              Or.inr ⟨hcv, by rw [hrec, hm]⟩⟩
        · simp only [hcv, if_true, Except.ok.injEq, Prod.mk.injEq] at h
          obtain ⟨hm, hl⟩ := h
          exact ⟨m1, m2, value, [], rfl, hrp, hov, hl.symm,
            Or.inl ⟨hcv, rfl, hm.symm⟩⟩

theorem fitLoop_zero_inv (ctx : Ctx) (it : ℕ) (alphaIn : ℚ) (prev : Option ℚ)
    (m mF : Model) (logs : List EpochLog)
    (h : fitLoop ctx 0 it alphaIn prev m = .ok (mF, logs)) :
    mF = m ∧ logs = [] := by
  simp only [fitLoop, Except.ok.injEq, Prod.mk.injEq] at h
  exact ⟨h.1.symm, h.2.symm⟩

theorem fitLoop_orders (ctx : Ctx) : ∀ (fuel it : ℕ) (alphaIn : ℚ)
    (prev : Option ℚ) (m mF : Model) (logs : List EpochLog),
    fitLoop ctx fuel it alphaIn prev m = .ok (mF, logs) →
    ∀ lg ∈ logs, lg.order = ctx.votes ∧ lg.revOrder = ctx.revs := by
  intro fuel
  induction fuel with
  | zero =>
    intro it alphaIn prev m mF logs h lg hlg
    obtain ⟨-, rfl⟩ := fitLoop_zero_inv ctx it alphaIn prev m mF logs h
    simp at hlg
  | succ n ih =>
    intro it alphaIn prev m mF logs h lg hlg
    obtain ⟨m1, m2, value, logs', hvp, hrp, hov, hl, hbr⟩ :=
      fitLoop_succ_inv ctx n it alphaIn prev m mF logs h
    subst hl
    rcases List.mem_cons.1 hlg with rfl | hmem
    · exact ⟨rfl, rfl⟩
    · rcases hbr with ⟨-, rfl, -⟩ | ⟨-, hrec⟩
      · simp at hmem
      · exact ih _ _ _ _ _ _ hrec lg hmem

theorem fitLoop_alpha (ctx : Ctx) : ∀ (fuel it : ℕ) (alphaIn : ℚ)
    (prev : Option ℚ) (m mF : Model) (logs : List EpochLog),
    fitLoop ctx fuel it alphaIn prev m = .ok (mF, logs) →
    ∀ (i : ℕ) (lg : EpochLog), logs[i]? = some lg →
      lg.alpha = alphaIn / ∏ j ∈ Finset.range (i + 1), ctx.sqrtFn (it + 1 + j) := by
  intro fuel
  induction fuel with
  | zero =>
    intro it alphaIn prev m mF logs h i lg hlg
    obtain ⟨-, rfl⟩ := fitLoop_zero_inv ctx it alphaIn prev m mF logs h
    simp at hlg
  | succ n ih =>
    intro it alphaIn prev m mF logs h i lg hlg
    obtain ⟨m1, m2, value, logs', hvp, hrp, hov, hl, hbr⟩ :=
      fitLoop_succ_inv ctx n it alphaIn prev m mF logs h
    subst hl
    cases i with
    | zero =>
      simp only [List.getElem?_cons_zero, Option.some.injEq] at hlg
      subst hlg
      simp [Finset.prod_range_one]
    | succ i =>
      simp only [List.getElem?_cons_succ] at hlg
      rcases hbr with ⟨-, rfl, -⟩ | ⟨-, hrec⟩
      · simp at hlg
      · have hstep := ih _ _ _ _ _ _ hrec i lg hlg
        have hden : ∏ j ∈ Finset.range (i + 1 + 1), ctx.sqrtFn (it + 1 + j) =
            ctx.sqrtFn (it + 1) *
              ∏ j ∈ Finset.range (i + 1), ctx.sqrtFn (it + 1 + 1 + j) := by
          rw [Finset.prod_range_succ', mul_comm]
          congr 1
          exact Finset.prod_congr rfl fun k _ => by congr 1; omega
        rw [hstep, div_div, hden]

theorem fitLoop_len_le (ctx : Ctx) : ∀ (fuel it : ℕ) (alphaIn : ℚ)
    (prev : Option ℚ) (m mF : Model) (logs : List EpochLog),
    fitLoop ctx fuel it alphaIn prev m = .ok (mF, logs) →
    logs.length ≤ fuel := by
  intro fuel
  induction fuel with
  | zero =>
    intro it alphaIn prev m mF logs h
    obtain ⟨-, rfl⟩ := fitLoop_zero_inv ctx it alphaIn prev m mF logs h
    simp
  | succ n ih =>
    intro it alphaIn prev m mF logs h
    obtain ⟨m1, m2, value, logs', hvp, hrp, hov, hl, hbr⟩ :=
      fitLoop_succ_inv ctx n it alphaIn prev m mF logs h
    subst hl
    rcases hbr with ⟨-, rfl, -⟩ | ⟨-, hrec⟩
    · simp
    · have := ih _ _ _ _ _ _ hrec
      simpa using Nat.succ_le_succ this

theorem convCheck_zero (prev : Option ℚ) (value : ℚ) :
    convCheck prev value 0 = false := by
  cases prev with
  | none => rfl
  | some p =>
    simp only [convCheck, decide_eq_false_iff_not, not_lt]
    exact abs_nonneg _

theorem fitLoop_conv_nonlast (ctx : Ctx) : ∀ (fuel it : ℕ) (alphaIn : ℚ)
    (prev : Option ℚ) (m mF : Model) (logs : List EpochLog),
    fitLoop ctx fuel it alphaIn prev m = .ok (mF, logs) →
    ∀ (i : ℕ) (lg : EpochLog), i + 1 < logs.length → logs[i]? = some lg →
      convCheck lg.prevObj lg.value ctx.tol = false := by
  intro fuel
  induction fuel with
  | zero =>
    intro it alphaIn prev m mF logs h i lg hi hlg
    obtain ⟨-, rfl⟩ := fitLoop_zero_inv ctx it alphaIn prev m mF logs h
    simp at hlg
  | succ n ih =>
    intro it alphaIn prev m mF logs h i lg hi hlg
    obtain ⟨m1, m2, value, logs', hvp, hrp, hov, hl, hbr⟩ :=
      fitLoop_succ_inv ctx n it alphaIn prev m mF logs h
    subst hl
    rcases hbr with ⟨hcv, rfl, -⟩ | ⟨hcv, hrec⟩
    · simp at hi
    · cases i with
      | zero =>
        simp only [List.getElem?_cons_zero, Option.some.injEq] at hlg
        subst hlg
        exact hcv
      | succ i =>
        simp only [List.getElem?_cons_succ] at hlg
        simp only [List.length_cons, Nat.add_lt_add_iff_right] at hi
        exact ih _ _ _ _ _ _ hrec i lg hi hlg

theorem fitLoop_early_break (ctx : Ctx) : ∀ (fuel it : ℕ) (alphaIn : ℚ)
    (prev : Option ℚ) (m mF : Model) (logs : List EpochLog),
    fitLoop ctx fuel it alphaIn prev m = .ok (mF, logs) →
    logs.length < fuel →
    ∃ lg, logs.getLast? = some lg ∧ convCheck lg.prevObj lg.value ctx.tol = true := by
  intro fuel
  induction fuel with
  | zero =>
    intro it alphaIn prev m mF logs h hlen
    exact absurd hlen (by omega)
  | succ n ih =>
    intro it alphaIn prev m mF logs h hlen
    obtain ⟨m1, m2, value, logs', hvp, hrp, hov, hl, hbr⟩ :=
      fitLoop_succ_inv ctx n it alphaIn prev m mF logs h
    subst hl
    rcases hbr with ⟨hcv, rfl, -⟩ | ⟨hcv, hrec⟩
    · exact ⟨_, rfl, hcv⟩
    · simp only [List.length_cons, Nat.add_lt_add_iff_right] at hlen
      obtain ⟨lg, hlast, hconv⟩ := ih _ _ _ _ _ _ hrec hlen
      refine ⟨lg, ?_, hconv⟩
      cases logs' with
      | nil => simp at hlast
      | cons b bs => rw [List.getLast?_cons_cons]; exact hlast

theorem fitLoop_tol_zero (ctx : Ctx) (htol : ctx.tol = 0) :
    ∀ (fuel it : ℕ) (alphaIn : ℚ) (prev : Option ℚ) (m mF : Model)
      (logs : List EpochLog),
    fitLoop ctx fuel it alphaIn prev m = .ok (mF, logs) →
    logs.length = fuel := by
  intro fuel
  induction fuel with
  | zero =>
    intro it alphaIn prev m mF logs h
    obtain ⟨-, rfl⟩ := fitLoop_zero_inv ctx it alphaIn prev m mF logs h
    rfl
  | succ n ih =>
    intro it alphaIn prev m mF logs h
    obtain ⟨m1, m2, value, logs', hvp, hrp, hov, hl, hbr⟩ :=
      fitLoop_succ_inv ctx n it alphaIn prev m mF logs h
    subst hl
    rcases hbr with ⟨hcv, rfl, -⟩ | ⟨hcv, hrec⟩
    · rw [htol, convCheck_zero] at hcv
      exact absurd hcv (by simp)
    · simp [ih _ _ _ _ _ _ hrec]

theorem fitLoop_prev_thread (ctx : Ctx) : ∀ (fuel it : ℕ) (alphaIn : ℚ)
    (prev : Option ℚ) (m mF : Model) (logs : List EpochLog),
    fitLoop ctx fuel it alphaIn prev m = .ok (mF, logs) →
    (∀ lg, logs[0]? = some lg → lg.prevObj = prev) ∧
    (∀ (i : ℕ) (lg lg' : EpochLog), logs[i]? = some lg →
      logs[i + 1]? = some lg' → lg'.prevObj = some lg.value) := by
  intro fuel
  induction fuel with
  | zero =>
    intro it alphaIn prev m mF logs h
    obtain ⟨-, rfl⟩ := fitLoop_zero_inv ctx it alphaIn prev m mF logs h
    constructor
    · intro lg hlg; simp at hlg
    · intro i lg lg' hlg hlg'; simp at hlg
  | succ n ih =>
    intro it alphaIn prev m mF logs h
    obtain ⟨m1, m2, value, logs', hvp, hrp, hov, hl, hbr⟩ :=
      fitLoop_succ_inv ctx n it alphaIn prev m mF logs h
    subst hl
    constructor
    · intro lg hlg
      simp only [List.getElem?_cons_zero, Option.some.injEq] at hlg
      subst hlg
      rfl
    · intro i lg lg' hlg hlg'
      rcases hbr with ⟨hcv, rfl, -⟩ | ⟨hcv, hrec⟩
      · cases i with
        | zero => simp at hlg'
        | succ i => simp at hlg
      · cases i with
        | zero =>
          simp only [List.getElem?_cons_zero, Option.some.injEq] at hlg
          subst hlg
          simp only [List.getElem?_cons_succ] at hlg'
          exact (ih _ _ _ _ _ _ hrec).1 lg' hlg'
        | succ i =>
          simp only [List.getElem?_cons_succ] at hlg hlg'
          exact (ih _ _ _ _ _ _ hrec).2 i lg lg' hlg hlg'

theorem fitLoop_value_obj (ctx : Ctx) : ∀ (fuel it : ℕ) (alphaIn : ℚ)
    (prev : Option ℚ) (m mF : Model) (logs : List EpochLog),
    fitLoop ctx fuel it alphaIn prev m = .ok (mF, logs) →
    ∀ lg ∈ logs, ∃ m', objectiveValue ctx m' = .ok lg.value := by
  intro fuel
  induction fuel with
  | zero =>
    intro it alphaIn prev m mF logs h lg hlg
    obtain ⟨-, rfl⟩ := fitLoop_zero_inv ctx it alphaIn prev m mF logs h
    simp at hlg
  | succ n ih =>
    intro it alphaIn prev m mF logs h lg hlg
    obtain ⟨m1, m2, value, logs', hvp, hrp, hov, hl, hbr⟩ :=
      fitLoop_succ_inv ctx n it alphaIn prev m mF logs h
    subst hl
    rcases List.mem_cons.1 hlg with rfl | hmem
    · exact ⟨_, hov⟩
    · rcases hbr with ⟨-, rfl, -⟩ | ⟨-, hrec⟩
      · simp at hmem
      · exact ih _ _ _ _ _ _ hrec lg hmem

theorem voteStep_same_bias (ctx : Ctx) (alpha : ℚ) (m m' : Model) (vt : Vote)
    (h : voteStep ctx alpha m vt = .ok m') :
    m'.voterBias = m.voterBias ∧ m'.reviewBias = m.reviewBias ∧
    m'.authorBias = m.authorBias ∧ m'.productBias = m.productBias := by
  cases h0 : assocLookup ctx.reviewsL vt.review with
  | none => simp only [voteStep, h0] at h; exact Except.noConfusion h
  | some rev =>
    cases h1 : ctx.voterMap vt.voter with
    | none => simp only [voteStep, h0, h1] at h; exact Except.noConfusion h
    | some v =>
      cases h2 : ctx.authorMap vt.author with
      | none => simp only [voteStep, h0, h1, h2] at h; exact Except.noConfusion h
      | some a =>
        cases h3 : ctx.productMap rev.product with
        | none => simp only [voteStep, h0, h1, h2, h3] at h; exact Except.noConfusion h
        | some p =>
          cases h4 : m.voterBias vt.voter with
          | none => simp only [voteStep, h0, h1, h2, h3, h4] at h; exact Except.noConfusion h
          | some vb =>
            cases h5 : m.reviewBias vt.review with
            | none =>
              simp only [voteStep, h0, h1, h2, h3, h4, h5] at h
              exact Except.noConfusion h
            | some rb =>
              simp only [voteStep, h0, h1, h2, h3, h4, h5, Except.ok.injEq] at h
              subst h
              exact ⟨rfl, rfl, rfl, rfl⟩

theorem votePass_same_bias (ctx : Ctx) (alpha : ℚ) :
    ∀ (votes : List Vote) (m m' : Model),
    votePass ctx alpha m votes = .ok m' →
    m'.voterBias = m.voterBias ∧ m'.reviewBias = m.reviewBias ∧
    m'.authorBias = m.authorBias ∧ m'.productBias = m.productBias := by
  intro votes
  induction votes with
  | nil =>
    intro m m' h
    simp only [votePass, Except.ok.injEq] at h
    subst h
    exact ⟨rfl, rfl, rfl, rfl⟩
  | cons vt rest ih =>
    intro m m' h
    simp only [votePass] at h
    rcases hstep : voteStep ctx alpha m vt with e | m1
    · simp only [hstep] at h
      exact Except.noConfusion h
    · simp only [hstep] at h
      obtain ⟨h1, h2, h3, h4⟩ := voteStep_same_bias ctx alpha m m1 vt hstep
      obtain ⟨g1, g2, g3, g4⟩ := ih m1 m' h
      exact ⟨g1.trans h1, g2.trans h2, g3.trans h3, g4.trans h4⟩

theorem ratingStep_same_bias (ctx : Ctx) (alpha : ℚ) (m m' : Model) (rv : Review)
    (h : ratingStep ctx alpha m rv = .ok m') :
    m'.voterBias = m.voterBias ∧ m'.reviewBias = m.reviewBias ∧
    m'.authorBias = m.authorBias ∧ m'.productBias = m.productBias := by
  cases h0 : ctx.authorMap rv.author with
  | none => simp only [ratingStep, h0] at h; exact Except.noConfusion h
  | some a =>
    cases h1 : ctx.productMap rv.product with
    | none => simp only [ratingStep, h0, h1] at h; exact Except.noConfusion h
    | some p =>
      cases h2 : m.authorBias rv.author with
      | none => simp only [ratingStep, h0, h1, h2] at h; exact Except.noConfusion h
      | some ab =>
        cases h3 : m.productBias rv.product with
        | none =>
          simp only [ratingStep, h0, h1, h2, h3] at h
          exact Except.noConfusion h
        | some pb =>
          simp only [ratingStep, h0, h1, h2, h3, Except.ok.injEq] at h
          subst h
          exact ⟨rfl, rfl, rfl, rfl⟩

theorem ratingPass_same_bias (ctx : Ctx) (alpha : ℚ) :
    ∀ (revs : List Review) (m m' : Model),
    ratingPass ctx alpha m revs = .ok m' →
    m'.voterBias = m.voterBias ∧ m'.reviewBias = m.reviewBias ∧
    m'.authorBias = m.authorBias ∧ m'.productBias = m.productBias := by
  intro revs
  induction revs with
  | nil =>
    intro m m' h
    simp only [ratingPass, Except.ok.injEq] at h
    subst h
    exact ⟨rfl, rfl, rfl, rfl⟩
  | cons rv rest ih =>
    intro m m' h
    simp only [ratingPass] at h
    rcases hstep : ratingStep ctx alpha m rv with e | m1
    · simp only [hstep] at h
      exact Except.noConfusion h
    · simp only [hstep] at h
      obtain ⟨h1, h2, h3, h4⟩ := ratingStep_same_bias ctx alpha m m1 rv hstep
      obtain ⟨g1, g2, g3, g4⟩ := ih m1 m' h
      exact ⟨g1.trans h1, g2.trans h2, g3.trans h3, g4.trans h4⟩

theorem decayStep_same_bias (ctx : Ctx) (alpha : ℚ) (m : Model)
    (hub : ctx.updateBias = false) :
    (decayStep ctx alpha m).voterBias = m.voterBias ∧
    (decayStep ctx alpha m).reviewBias = m.reviewBias ∧
    (decayStep ctx alpha m).authorBias = m.authorBias ∧
    (decayStep ctx alpha m).productBias = m.productBias := by
  simp [decayStep, hub]

theorem fitLoop_same_bias (ctx : Ctx) (hub : ctx.updateBias = false) :
    ∀ (fuel it : ℕ) (alphaIn : ℚ) (prev : Option ℚ) (m mF : Model)
      (logs : List EpochLog),
    fitLoop ctx fuel it alphaIn prev m = .ok (mF, logs) →
    mF.voterBias = m.voterBias ∧ mF.reviewBias = m.reviewBias ∧
    mF.authorBias = m.authorBias ∧ mF.productBias = m.productBias := by
  intro fuel
  induction fuel with
  | zero =>
    intro it alphaIn prev m mF logs h
    obtain ⟨rfl, -⟩ := fitLoop_zero_inv ctx it alphaIn prev m mF logs h
    exact ⟨rfl, rfl, rfl, rfl⟩
  | succ n ih =>
    intro it alphaIn prev m mF logs h
    obtain ⟨m1, m2, value, logs', hvp, hrp, hov, hl, hbr⟩ :=
      fitLoop_succ_inv ctx n it alphaIn prev m mF logs h
    obtain ⟨v1, r1, a1, p1⟩ := votePass_same_bias ctx _ ctx.votes m m1 hvp
    obtain ⟨v2, r2, a2, p2⟩ := ratingPass_same_bias ctx _ ctx.revs m1 m2 hrp
    obtain ⟨v3, r3, a3, p3⟩ :=
      decayStep_same_bias ctx (alphaIn / ctx.sqrtFn (it + 1)) m2 hub
    rcases hbr with ⟨-, -, rfl⟩ | ⟨-, hrec⟩
    · exact ⟨(v3.trans v2).trans v1, (r3.trans r2).trans r1,
        (a3.trans a2).trans a1, (p3.trans p2).trans p1⟩
    · obtain ⟨v4, r4, a4, p4⟩ := ih _ _ _ _ _ _ hrec
      exact ⟨((v4.trans v3).trans v2).trans v1, ((r4.trans r3).trans r2).trans r1,
        ((a4.trans a3).trans a2).trans a1, ((p4.trans p3).trans p2).trans p1⟩

/-! ## Inversion of `fit` -/

theorem fit_inv (sig sigDer : ℚ → ℚ) (sqrtFn : ℕ → ℚ) (g : Globals)
    (iV iA iP : ℕ → ℕ → ℚ) (iS : ℕ → ℕ → ℕ → ℚ)
    (shV : List Vote → List Vote) (shR : List Review → List Review)
    (votes : List Vote) (reviewsL : List (ℕ × Review)) (r : FitResult)
    (h : fit sig sigDer sqrtFn g iV iA iP iS shV shR votes reviewsL = .ok r) :
    r.ctx.K = g.k.toNat ∧ r.ctx.beta = g.beta ∧ r.ctx.tol = g.tol ∧
    r.ctx.updateBias = g.updateBias ∧ r.ctx.sig = sig ∧ r.ctx.sigDer = sigDer ∧
    r.ctx.sqrtFn = sqrtFn ∧ r.ctx.reviewsL = reviewsL ∧
    r.ctx.votes = shV votes ∧
    r.ctx.overallMean = (votes.map (·.vote)).sum / (votes.length : ℚ) ∧
    r.ctx.ratingAvg = (reviewsL.map (·.2.rating)).sum / (reviewsL.length : ℚ) ∧
    ∃ m0 : Model,
      m0.V = iV ∧ m0.A = iA ∧ m0.P = iP ∧ m0.S = iS ∧
      m0.voterBias = voterBiasOf r.ctx.overallMean votes ∧
      m0.reviewBias = reviewBiasOf r.ctx.overallMean votes ∧
      m0.authorBias = authorBiasOf r.ctx.ratingAvg (reviewsL.map (·.2)) ∧
      m0.productBias = productBiasOf r.ctx.ratingAvg (reviewsL.map (·.2)) ∧
      fitLoop r.ctx g.iter.toNat 0 g.alpha none m0 = .ok (r.model, r.trace) := by
  simp only [fit, finishFit] at h
  split at h
  · exact Except.noConfusion h
  next prods hprods =>
    split at h
    next hlen => exact Except.noConfusion h
    next hlen =>
      split at h
      next hrl => exact Except.noConfusion h
      next hrl =>
        split at h
        · exact Except.noConfusion h
        next revRecs hrr =>
          split at h
          · exact Except.noConfusion h
          next mm logs hfl =>
            cases h
            exact ⟨rfl, rfl, rfl, rfl, rfl, rfl, rfl, rfl, rfl, rfl, rfl,
              ⟨_, rfl, rfl, rfl, rfl, rfl, rfl, rfl, rfl, hfl⟩⟩

/-! ## Claim C1: the learning-rate schedule -/

/-- C1 counterexample: on input A (base rate 6, `sqrtFn n = n`, three
    epochs), the rates actually used are `[6, 3, 1]`: epoch 2 uses
    `6 / (sqrt 1 * sqrt 2 * sqrt 3) = 1`, while the claimed schedule
    `alpha_0 / sqrt(it+1)` would give `6 / sqrt 3 = 2 ≠ 1` — the rate is
    obtained by dividing the previous epoch's rate, not recomputed from
    the base. -/
theorem claim_C1_counterexample :
    (fitA.map (fun r => r.trace.map (·.alpha))).toOption = some [6, 3, 1] ∧
    gA.alpha / sqrtA (2 + 1) = 2 ∧ (1 : ℚ) ≠ 2 := by
  refine ⟨?_, by norm_num [gA, sqrtA], by norm_num⟩
  norm_num [fitA, vA, rA, gA, fit, finishFit, fitLoop, votePass, voteStep, ratingPass, ratingStep, decayStep, objectiveValue, sseValue, sseVotes, sseRevs, regValue, regMatrices, regBiases, convCheck, tensor_dot, tensor_dot_der_v, tensor_dot_der_a, tensor_dot_der_p, tensor_dot_der_s, voterBiasOf, reviewBiasOf, authorBiasOf, productBiasOf, biasAccum, assocLookup, lookupIdx, resolveProducts, resolveReviews, updateRow, Ctx.voterMap, Ctx.authorMap, Ctx.productMap, Function.update, sqrtA, zeroFun2, zeroFun3, exceptOk, Except.map, Except.toOption, List.dedup_cons_of_mem, List.dedup_cons_of_not_mem, Finset.sum_range_succ]

/-- C1 (amended): the learning rate used by epoch `it`'s vote pass, rating
    pass and regularization decay (the `alpha` recorded in the epoch's
    trace entry, which the loop passes to all three) equals the base rate
    divided by the cumulative product `sqrt(1) * sqrt(2) * ... * sqrt(it+1)`
    — each epoch divides the previous epoch's rate by `sqrt(it+1)`
    (line 312 operates on the carried `alpha`, not on `_ALPHA`). -/
theorem claim_C1_amended_cumulative_schedule (sig sigDer : ℚ → ℚ)
    (sqrtFn : ℕ → ℚ) (g : Globals) (iV iA iP : ℕ → ℕ → ℚ)
    (iS : ℕ → ℕ → ℕ → ℚ) (shV : List Vote → List Vote)
    (shR : List Review → List Review) (votes : List Vote)
    (reviewsL : List (ℕ × Review)) (r : FitResult) (i : ℕ) (lg : EpochLog)
    (h : fit sig sigDer sqrtFn g iV iA iP iS shV shR votes reviewsL = .ok r)
    (hlg : r.trace[i]? = some lg) :
    lg.alpha = g.alpha / ∏ j ∈ Finset.range (i + 1), sqrtFn (j + 1) := by
  obtain ⟨-, -, -, -, -, -, hsq, -, -, -, -, m0, -, -, -, -, -, -, -, -, hfl⟩ :=
    fit_inv sig sigDer sqrtFn g iV iA iP iS shV shR votes reviewsL r h
  have hstep := fitLoop_alpha r.ctx g.iter.toNat 0 g.alpha none m0 r.model
    r.trace hfl i lg hlg
  rw [hstep, hsq]
  congr 1
  exact Finset.prod_congr rfl fun j _ => by congr 1; omega

/-- Witness for the amended C1 at input A: the rate of the third epoch
    (index 2) is `6 / (1 * 2 * 3) = 1`. -/
theorem claim_C1_amended_cumulative_schedule_witness :
    (6 : ℚ) / (∏ j ∈ Finset.range 3, sqrtA (j + 1)) = 1 := by
  obtain ⟨r, hr⟩ := exceptOk_exists (e := fitA)
    (by norm_num [fitA, vA, rA, gA, fit, finishFit, fitLoop, votePass, voteStep, ratingPass, ratingStep, decayStep, objectiveValue, sseValue, sseVotes, sseRevs, regValue, regMatrices, regBiases, convCheck, tensor_dot, tensor_dot_der_v, tensor_dot_der_a, tensor_dot_der_p, tensor_dot_der_s, voterBiasOf, reviewBiasOf, authorBiasOf, productBiasOf, biasAccum, assocLookup, lookupIdx, resolveProducts, resolveReviews, updateRow, Ctx.voterMap, Ctx.authorMap, Ctx.productMap, Function.update, sqrtA, zeroFun2, zeroFun3, exceptOk, Except.map, Except.toOption, List.dedup_cons_of_mem, List.dedup_cons_of_not_mem, Finset.sum_range_succ])
  have htr : (fitA.map (fun x => x.trace.map (·.alpha))).toOption = some [6, 3, 1] := by
    norm_num [fitA, vA, rA, gA, fit, finishFit, fitLoop, votePass, voteStep, ratingPass, ratingStep, decayStep, objectiveValue, sseValue, sseVotes, sseRevs, regValue, regMatrices, regBiases, convCheck, tensor_dot, tensor_dot_der_v, tensor_dot_der_a, tensor_dot_der_p, tensor_dot_der_s, voterBiasOf, reviewBiasOf, authorBiasOf, productBiasOf, biasAccum, assocLookup, lookupIdx, resolveProducts, resolveReviews, updateRow, Ctx.voterMap, Ctx.authorMap, Ctx.productMap, Function.update, sqrtA, zeroFun2, zeroFun3, exceptOk, Except.map, Except.toOption, List.dedup_cons_of_mem, List.dedup_cons_of_not_mem, Finset.sum_range_succ]
  rw [hr] at htr
  simp only [Except.map, Except.toOption, Option.some.injEq] at htr
  have hlg2 : r.trace[2]?.map (·.alpha) = some 1 := by
    rw [← List.getElem?_map, htr]
    rfl
  rcases h2 : r.trace[2]? with _ | lg
  · rw [h2] at hlg2
    simp at hlg2
  · rw [h2] at hlg2
    simp only [Option.map_some', Option.some.injEq] at hlg2
    have hthm := claim_C1_amended_cumulative_schedule (fun _ => 0) (fun _ => 0)
      sqrtA gA zeroFun2 zeroFun2 zeroFun2 zeroFun3 id id [vA] [(30, rA)] r 2 lg
      hr h2
    have hga : gA.alpha = (6 : ℚ) := rfl
    rw [hga] at hthm
    rw [← hthm, hlg2]

/-! ## Claim C2: when the shuffles happen -/

/-- C2 counterexample: on input B (two votes, two epochs, the single
    pre-loop shuffle reversing the list), both epochs process the votes in
    the same order `[vB2, vB1]` — the single order fixed before the first
    epoch — whereas genuinely fresh per-epoch shuffles (`shufsB`, identity
    in epoch 0 and reversal in epoch 1, as the spec's step 2 describes)
    would give two different orders. -/
theorem claim_C2_counterexample :
    (fitB.map (fun r => r.trace.map (·.order))).toOption =
      some [[vB2, vB1], [vB2, vB1]] ∧
    specEpochVoteOrder shufsB [vB1, vB2] 0 ≠ specEpochVoteOrder shufsB [vB1, vB2] 1 := by
  constructor
  · norm_num [fitB, vB1, vB2, rA, gB, fit, finishFit, fitLoop, votePass, voteStep, ratingPass, ratingStep, decayStep, objectiveValue, sseValue, sseVotes, sseRevs, regValue, regMatrices, regBiases, convCheck, tensor_dot, tensor_dot_der_v, tensor_dot_der_a, tensor_dot_der_p, tensor_dot_der_s, voterBiasOf, reviewBiasOf, authorBiasOf, productBiasOf, biasAccum, assocLookup, lookupIdx, resolveProducts, resolveReviews, updateRow, Ctx.voterMap, Ctx.authorMap, Ctx.productMap, Function.update, sqrtA, zeroFun2, zeroFun3, exceptOk, Except.map, Except.toOption, List.dedup_cons_of_mem, List.dedup_cons_of_not_mem, Finset.sum_range_succ]
  · simp [specEpochVoteOrder, shufsB, vB1, vB2, Vote.mk.injEq]

/-- C2 (amended): the vote list and the distinct-review list are each
    shuffled exactly once, before the first epoch (lines 305 and 308);
    every epoch of `fit` processes the votes in the single fixed order
    `shV votes` produced by that one shuffle, and the reviews in the
    single fixed order `r.ctx.revs`. -/
theorem claim_C2_amended_single_preloop_shuffle (sig sigDer : ℚ → ℚ)
    (sqrtFn : ℕ → ℚ) (g : Globals) (iV iA iP : ℕ → ℕ → ℚ)
    (iS : ℕ → ℕ → ℕ → ℚ) (shV : List Vote → List Vote)
    (shR : List Review → List Review) (votes : List Vote)
    (reviewsL : List (ℕ × Review)) (r : FitResult) (lg : EpochLog)
    (h : fit sig sigDer sqrtFn g iV iA iP iS shV shR votes reviewsL = .ok r)
    (hlg : lg ∈ r.trace) :
    lg.order = shV votes ∧ lg.revOrder = r.ctx.revs := by
  obtain ⟨-, -, -, -, -, -, -, -, hvotes, -, -, m0, -, -, -, -, -, -, -, -, hfl⟩ :=
    fit_inv sig sigDer sqrtFn g iV iA iP iS shV shR votes reviewsL r h
  have horders := fitLoop_orders r.ctx g.iter.toNat 0 g.alpha none m0 r.model
    r.trace hfl lg hlg
  exact ⟨hvotes ▸ horders.1, horders.2⟩

/-- Witness for the amended C2 at input B: the first epoch's processing
    order is exactly the once-reversed vote list. -/
theorem claim_C2_amended_single_preloop_shuffle_witness :
    (fitB.map (fun r => r.trace[0]?.map (·.order))).toOption =
      some (some (List.reverse [vB1, vB2])) := by
  obtain ⟨r, hr⟩ := exceptOk_exists (e := fitB)
    (by norm_num [fitB, vB1, vB2, rA, gB, fit, finishFit, fitLoop, votePass, voteStep, ratingPass, ratingStep, decayStep, objectiveValue, sseValue, sseVotes, sseRevs, regValue, regMatrices, regBiases, convCheck, tensor_dot, tensor_dot_der_v, tensor_dot_der_a, tensor_dot_der_p, tensor_dot_der_s, voterBiasOf, reviewBiasOf, authorBiasOf, productBiasOf, biasAccum, assocLookup, lookupIdx, resolveProducts, resolveReviews, updateRow, Ctx.voterMap, Ctx.authorMap, Ctx.productMap, Function.update, sqrtA, zeroFun2, zeroFun3, exceptOk, Except.map, Except.toOption, List.dedup_cons_of_mem, List.dedup_cons_of_not_mem, Finset.sum_range_succ])
  have hlen : (fitB.map (fun x => x.trace.length)).toOption = some 2 := by
    norm_num [fitB, vB1, vB2, rA, gB, fit, finishFit, fitLoop, votePass, voteStep, ratingPass, ratingStep, decayStep, objectiveValue, sseValue, sseVotes, sseRevs, regValue, regMatrices, regBiases, convCheck, tensor_dot, tensor_dot_der_v, tensor_dot_der_a, tensor_dot_der_p, tensor_dot_der_s, voterBiasOf, reviewBiasOf, authorBiasOf, productBiasOf, biasAccum, assocLookup, lookupIdx, resolveProducts, resolveReviews, updateRow, Ctx.voterMap, Ctx.authorMap, Ctx.productMap, Function.update, sqrtA, zeroFun2, zeroFun3, exceptOk, Except.map, Except.toOption, List.dedup_cons_of_mem, List.dedup_cons_of_not_mem, Finset.sum_range_succ]
  rw [hr] at hlen
  simp only [Except.map, Except.toOption, Option.some.injEq] at hlen
  rcases h0 : r.trace[0]? with _ | lg
  · rw [List.getElem?_eq_none_iff] at h0
    omega
  · have hmem : lg ∈ r.trace := List.getElem?_mem h0
    have hthm := claim_C2_amended_single_preloop_shuffle (fun _ => 0) (fun _ => 0)
      sqrtA gB zeroFun2 zeroFun2 zeroFun2 zeroFun3 (fun l => l.reverse) id
      [vB1, vB2] [(30, rA)] r lg hr hmem
    rw [hr]
    simp only [Except.map, Except.toOption, h0, Option.map_some', Option.some.injEq]
    exact hthm.1

/-! ## Claim C3: the objective value -/

theorem regValue_eq_beta_squares (ctx : Ctx) (m : Model) :
    regValue ctx m = ctx.beta * squaresSum ctx m := by
  have key : ∀ (L : List ℕ) (f : ℕ → ℕ → ℚ),
      ((L.map (fun v => ∑ i ∈ Finset.range ctx.K, ctx.beta * f v i ^ 2)).sum) =
        ctx.beta * ((L.map (fun v => ∑ i ∈ Finset.range ctx.K, f v i ^ 2)).sum) := by
    intro L f
    induction L with
    | nil => simp
    | cons x xs ih => simp [ih, Finset.mul_sum, mul_add]
  have key2 : ∀ (L : List ℕ) (f : ℕ → ℚ),
      ((L.map (fun u => ctx.beta * f u ^ 2)).sum) =
        ctx.beta * ((L.map (fun u => f u ^ 2)).sum) := by
    intro L f
    induction L with
    | nil => simp
    | cons x xs ih => simp [ih, mul_add]
  have keyS : (∑ i ∈ Finset.range ctx.K, ∑ j ∈ Finset.range ctx.K,
        ∑ k ∈ Finset.range ctx.K, ctx.beta * m.S i j k ^ 2) =
      ctx.beta * ∑ i ∈ Finset.range ctx.K, ∑ j ∈ Finset.range ctx.K,
        ∑ k ∈ Finset.range ctx.K, m.S i j k ^ 2 := by
    simp [Finset.mul_sum]
  cases hub : ctx.updateBias
  · simp only [regValue, regMatrices, regBiases, squaresSum, hub,
      Bool.false_eq_true, if_false]
    rw [key _ (fun v i => m.V v i), key _ (fun a i => m.A a i),
      key _ (fun p i => m.P p i), keyS]
    ring
  · simp only [regValue, regMatrices, regBiases, squaresSum, hub, if_true]
    rw [key _ (fun v i => m.V v i), key _ (fun a i => m.A a i),
      key _ (fun p i => m.P p i), keyS,
      key2 _ (fun u => (m.voterBias u).getD 0),
      key2 _ (fun a => (m.authorBias a).getD 0),
      key2 _ (fun p => (m.productBias p).getD 0)]
    ring

/-- C3 counterexample: on input A (beta 0, so no regularization terms) the
    sum of squared errors recomputed at every epoch's end is 2, so the
    claimed objective would be 2; the value actually used by the
    convergence check is 1 in every epoch — the code halves the whole
    accumulated sum (`value /= 2.0`), squared errors included.  (On this
    input the factor state never moves, so the final state is the state
    each epoch's objective was computed from.) -/
theorem claim_C3_counterexample :
    (fitA.map (fun r => r.trace.map (·.value))).toOption = some [1, 1, 1] ∧
    (fitA.map (fun r => (specObjective r.ctx r.model).toOption)).toOption =
      some (some 2) ∧
    (1 : ℚ) ≠ 2 := by
  refine ⟨?_, ?_, by norm_num⟩
  · norm_num [fitA, vA, rA, gA, fit, finishFit, fitLoop, votePass, voteStep, ratingPass, ratingStep, decayStep, objectiveValue, sseValue, sseVotes, sseRevs, regValue, regMatrices, regBiases, convCheck, tensor_dot, tensor_dot_der_v, tensor_dot_der_a, tensor_dot_der_p, tensor_dot_der_s, voterBiasOf, reviewBiasOf, authorBiasOf, productBiasOf, biasAccum, assocLookup, lookupIdx, resolveProducts, resolveReviews, updateRow, Ctx.voterMap, Ctx.authorMap, Ctx.productMap, Function.update, sqrtA, zeroFun2, zeroFun3, exceptOk, Except.map, Except.toOption, List.dedup_cons_of_mem, List.dedup_cons_of_not_mem, Finset.sum_range_succ]
  · norm_num [fitA, vA, rA, gA, specObjective, squaresSum, fit, finishFit, fitLoop, votePass, voteStep, ratingPass, ratingStep, decayStep, objectiveValue, sseValue, sseVotes, sseRevs, regValue, regMatrices, regBiases, convCheck, tensor_dot, tensor_dot_der_v, tensor_dot_der_a, tensor_dot_der_p, tensor_dot_der_s, voterBiasOf, reviewBiasOf, authorBiasOf, productBiasOf, biasAccum, assocLookup, lookupIdx, resolveProducts, resolveReviews, updateRow, Ctx.voterMap, Ctx.authorMap, Ctx.productMap, Function.update, sqrtA, zeroFun2, zeroFun3, exceptOk, Except.map, Except.toOption, List.dedup_cons_of_mem, List.dedup_cons_of_not_mem, Finset.sum_range_succ]

/-- C3 (amended): at the end of every epoch, the objective value used by
    the convergence check equals HALF the sum of squared errors (computed
    with sigmoid predictions from the current factor state) plus beta/2
    times the sum of squares of every entry of V, A, P, S (and of every
    bias value in dynamic-bias mode) — i.e. `(sse + beta*squares)/2`, not
    `sse + (beta/2)*squares`. -/
theorem claim_C3_amended_halved_objective (sig sigDer : ℚ → ℚ)
    (sqrtFn : ℕ → ℚ) (g : Globals) (iV iA iP : ℕ → ℕ → ℚ)
    (iS : ℕ → ℕ → ℕ → ℚ) (shV : List Vote → List Vote)
    (shR : List Review → List Review) (votes : List Vote)
    (reviewsL : List (ℕ × Review)) (r : FitResult) (lg : EpochLog)
    (h : fit sig sigDer sqrtFn g iV iA iP iS shV shR votes reviewsL = .ok r)
    (hlg : lg ∈ r.trace) :
    ∃ (m' : Model) (s : ℚ), sseValue r.ctx m' = .ok s ∧
      lg.value = s / 2 + r.ctx.beta / 2 * squaresSum r.ctx m' := by
  obtain ⟨-, -, -, -, -, -, -, -, -, -, -, m0, -, -, -, -, -, -, -, -, hfl⟩ :=
    fit_inv sig sigDer sqrtFn g iV iA iP iS shV shR votes reviewsL r h
  obtain ⟨m', hobj⟩ := fitLoop_value_obj r.ctx g.iter.toNat 0 g.alpha none m0
    r.model r.trace hfl lg hlg
  rcases hs : sseValue r.ctx m' with e | s
  · simp only [objectiveValue, hs] at hobj
    exact Except.noConfusion hobj
  · simp only [objectiveValue, hs, Except.ok.injEq] at hobj
    refine ⟨m', s, hs, ?_⟩
    rw [← hobj, regValue_eq_beta_squares]
    ring

/-- Witness for the amended C3 at input A: the first epoch's logged value
    satisfies the halved formula. -/
theorem claim_C3_amended_halved_objective_witness :
    ∃ (r : FitResult) (lg : EpochLog) (m' : Model) (s : ℚ),
      fitA = .ok r ∧ lg ∈ r.trace ∧ sseValue r.ctx m' = .ok s ∧
      lg.value = s / 2 + r.ctx.beta / 2 * squaresSum r.ctx m' := by
  obtain ⟨r, hr⟩ := exceptOk_exists (e := fitA)
    (by norm_num [fitA, vA, rA, gA, fit, finishFit, fitLoop, votePass, voteStep, ratingPass, ratingStep, decayStep, objectiveValue, sseValue, sseVotes, sseRevs, regValue, regMatrices, regBiases, convCheck, tensor_dot, tensor_dot_der_v, tensor_dot_der_a, tensor_dot_der_p, tensor_dot_der_s, voterBiasOf, reviewBiasOf, authorBiasOf, productBiasOf, biasAccum, assocLookup, lookupIdx, resolveProducts, resolveReviews, updateRow, Ctx.voterMap, Ctx.authorMap, Ctx.productMap, Function.update, sqrtA, zeroFun2, zeroFun3, exceptOk, Except.map, Except.toOption, List.dedup_cons_of_mem, List.dedup_cons_of_not_mem, Finset.sum_range_succ])
  have hlen : (fitA.map (fun x => x.trace.length)).toOption = some 3 := by
    norm_num [fitA, vA, rA, gA, fit, finishFit, fitLoop, votePass, voteStep, ratingPass, ratingStep, decayStep, objectiveValue, sseValue, sseVotes, sseRevs, regValue, regMatrices, regBiases, convCheck, tensor_dot, tensor_dot_der_v, tensor_dot_der_a, tensor_dot_der_p, tensor_dot_der_s, voterBiasOf, reviewBiasOf, authorBiasOf, productBiasOf, biasAccum, assocLookup, lookupIdx, resolveProducts, resolveReviews, updateRow, Ctx.voterMap, Ctx.authorMap, Ctx.productMap, Function.update, sqrtA, zeroFun2, zeroFun3, exceptOk, Except.map, Except.toOption, List.dedup_cons_of_mem, List.dedup_cons_of_not_mem, Finset.sum_range_succ]
  rw [hr] at hlen
  simp only [Except.map, Except.toOption, Option.some.injEq] at hlen
  rcases h0 : r.trace[0]? with _ | lg
  · rw [List.getElem?_eq_none_iff] at h0
    omega
  · have hmem : lg ∈ r.trace := List.getElem?_mem h0
    obtain ⟨m', s, hs, hv⟩ := claim_C3_amended_halved_objective (fun _ => 0)
      (fun _ => 0) sqrtA gA zeroFun2 zeroFun2 zeroFun2 zeroFun3 id id [vA]
      [(30, rA)] r lg hr hmem
    exact ⟨r, lg, m', s, hr, hmem, hs, hv⟩

/-! ## Claim C10: epoch count and early stopping -/

/-- C10: `fit` executes at most `max_iterations` epochs (the trace records
    one entry per executed epoch); no epoch other than the last one
    satisfies the convergence test `|previous - value| < tol` (the loop
    stops right after the first epoch that does); whenever `fit` stops
    before exhausting `max_iterations`, the last executed epoch satisfied
    the test; and with tolerance 0 the test never fires (`|x| < 0` is
    false even at delta exactly 0), so exactly `max_iterations` epochs
    run — in particular exactly 3 with `tol = 0`, `max_iterations = 3`. -/
theorem claim_C10_termination (sig sigDer : ℚ → ℚ) (sqrtFn : ℕ → ℚ)
    (g : Globals) (iV iA iP : ℕ → ℕ → ℚ) (iS : ℕ → ℕ → ℕ → ℚ)
    (shV : List Vote → List Vote) (shR : List Review → List Review)
    (votes : List Vote) (reviewsL : List (ℕ × Review)) (r : FitResult)
    (h : fit sig sigDer sqrtFn g iV iA iP iS shV shR votes reviewsL = .ok r) :
    r.trace.length ≤ g.iter.toNat ∧
    (∀ (i : ℕ) (lg : EpochLog), i + 1 < r.trace.length → r.trace[i]? = some lg →
      convCheck lg.prevObj lg.value g.tol = false) ∧
    (r.trace.length < g.iter.toNat →
      ∃ lg, r.trace.getLast? = some lg ∧
        convCheck lg.prevObj lg.value g.tol = true) ∧
    (g.tol = 0 → r.trace.length = g.iter.toNat) := by
  obtain ⟨-, -, htol, -, -, -, -, -, -, -, -, m0, -, -, -, -, -, -, -, -, hfl⟩ :=
    fit_inv sig sigDer sqrtFn g iV iA iP iS shV shR votes reviewsL r h
  refine ⟨fitLoop_len_le r.ctx g.iter.toNat 0 g.alpha none m0 r.model r.trace hfl,
    ?_, ?_, ?_⟩
  · intro i lg hi hlg
    have hc := fitLoop_conv_nonlast r.ctx g.iter.toNat 0 g.alpha none m0 r.model
      r.trace hfl i lg hi hlg
    rwa [htol] at hc
  · intro hlt
    obtain ⟨lg, h1, h2⟩ := fitLoop_early_break r.ctx g.iter.toNat 0 g.alpha none
      m0 r.model r.trace hfl hlt
    exact ⟨lg, h1, by rwa [htol] at h2⟩
  · intro h0
    exact fitLoop_tol_zero r.ctx (htol.trans h0) g.iter.toNat 0 g.alpha none m0
      r.model r.trace hfl

/-- Witness for C10 at input A: tolerance 0, three configured iterations,
    a non-degenerate one-vote training set: exactly 3 epochs run. -/
theorem claim_C10_termination_witness :
    (fitA.map (fun r => r.trace.length)).toOption = some 3 := by
  obtain ⟨r, hr⟩ := exceptOk_exists (e := fitA)
    (by norm_num [fitA, vA, rA, gA, fit, finishFit, fitLoop, votePass, voteStep, ratingPass, ratingStep, decayStep, objectiveValue, sseValue, sseVotes, sseRevs, regValue, regMatrices, regBiases, convCheck, tensor_dot, tensor_dot_der_v, tensor_dot_der_a, tensor_dot_der_p, tensor_dot_der_s, voterBiasOf, reviewBiasOf, authorBiasOf, productBiasOf, biasAccum, assocLookup, lookupIdx, resolveProducts, resolveReviews, updateRow, Ctx.voterMap, Ctx.authorMap, Ctx.productMap, Function.update, sqrtA, zeroFun2, zeroFun3, exceptOk, Except.map, Except.toOption, List.dedup_cons_of_mem, List.dedup_cons_of_not_mem, Finset.sum_range_succ])
  have h4 := (claim_C10_termination (fun _ => 0) (fun _ => 0) sqrtA gA zeroFun2
    zeroFun2 zeroFun2 zeroFun3 id id [vA] [(30, rA)] r hr).2.2.2 rfl
  rw [hr]
  simp only [Except.map, Except.toOption, Option.some.injEq]
  rw [h4]
  rfl

/-! ## Claim C4: the dead `_UPDATE_BIAS` assignment -/

theorem loadArgsAux_updateBias (pInt : String → Option ℤ)
    (pFloat : String → Option ℚ) :
    ∀ (n : ℕ) (args : List String), args.length ≤ n → ∀ (g g' : Globals),
    loadArgsAux pInt pFloat g args = some g' → g'.updateBias = g.updateBias := by
  intro n
  induction n with
  | zero =>
    intro args hlen g g' h
    rcases args with _ | ⟨flag, rest⟩
    · simp only [loadArgsAux, Option.some.injEq] at h
      subst h
      rfl
    · simp at hlen
  | succ n ih =>
    intro args hlen g g' h
    rcases args with _ | ⟨flag, _ | ⟨x, rs⟩⟩
    · simp only [loadArgsAux, Option.some.injEq] at h
      subst h
      rfl
    · simp only [loadArgsAux] at h
      exact Option.noConfusion h
    · simp only [List.length_cons] at hlen
      simp only [loadArgsAux] at h
      split at h
      · rcases hp : pInt x with _ | n0
        · simp only [hp] at h
          exact Option.noConfusion h
        · simp only [hp] at h
          rw [ih rs (by omega) _ _ h]
      · split at h
        · rcases hp : pFloat x with _ | q
          · simp only [hp] at h
            exact Option.noConfusion h
          · simp only [hp] at h
            rw [ih rs (by omega) _ _ h]
        · split at h
          · rcases hp : pFloat x with _ | q
            · simp only [hp] at h
              exact Option.noConfusion h
            · simp only [hp] at h
              rw [ih rs (by omega) _ _ h]
          · split at h
            · rcases hp : pFloat x with _ | q
              · simp only [hp] at h
                exact Option.noConfusion h
              · simp only [hp] at h
                rw [ih rs (by omega) _ _ h]
            · split at h
              · rcases hp : pInt x with _ | n0
                · simp only [hp] at h
                  exact Option.noConfusion h
                · simp only [hp] at h
                  rw [ih rs (by omega) _ _ h]
              · split at h
                · split at h
                  · rw [ih rs (by omega) _ _ h]
                  · exact Option.noConfusion h
                · exact Option.noConfusion h

/-- C4: `load_args` assigns `_UPDATE_BIAS` without a `global` declaration,
    so for every argument list on which it returns (including
    `['-b', 'd']`) the module-level `_UPDATE_BIAS` keeps its initial value
    `False` (first conjunct, stated against any starting globals;
    with the defaults the result is `false`); consequently a `fit` run in
    that state leaves the voter, author and product bias tables exactly as
    the bias estimation built them — the per-epoch decay never touches
    them (second conjunct) — and the objective never includes the bias
    squares: its regularization part is exactly the matrix part (third
    conjunct). -/
theorem claim_C4_update_bias_dead (pInt : String → Option ℤ)
    (pFloat : String → Option ℚ) :
    (∀ (argv : List String) (g' : Globals),
      load_args pInt pFloat argv = some g' → g'.updateBias = false) ∧
    (∀ (sig sigDer : ℚ → ℚ) (sqrtFn : ℕ → ℚ) (g : Globals)
      (iV iA iP : ℕ → ℕ → ℚ) (iS : ℕ → ℕ → ℕ → ℚ)
      (shV : List Vote → List Vote) (shR : List Review → List Review)
      (votes : List Vote) (reviewsL : List (ℕ × Review)) (r : FitResult),
      g.updateBias = false →
      fit sig sigDer sqrtFn g iV iA iP iS shV shR votes reviewsL = .ok r →
      r.model.voterBias = voterBiasOf r.ctx.overallMean votes ∧
      r.model.authorBias = authorBiasOf r.ctx.ratingAvg (reviewsL.map (·.2)) ∧
      r.model.productBias = productBiasOf r.ctx.ratingAvg (reviewsL.map (·.2))) ∧
    (∀ (ctx : Ctx) (m : Model), ctx.updateBias = false →
      regValue ctx m = regMatrices ctx m) := by
  refine ⟨?_, ?_, ?_⟩
  · intro argv g' h
    exact (loadArgsAux_updateBias pInt pFloat (argv.drop 1).length (argv.drop 1)
      le_rfl defaultGlobals g' h).trans rfl
  · intro sig sigDer sqrtFn g iV iA iP iS shV shR votes reviewsL r hub h
    obtain ⟨-, -, -, hctxub, -, -, -, -, -, -, -, m0, -, -, -, -, hvb, -, hab, hpb, hfl⟩ :=
      fit_inv sig sigDer sqrtFn g iV iA iP iS shV shR votes reviewsL r h
    obtain ⟨p1, p2, p3, p4⟩ := fitLoop_same_bias r.ctx (hctxub.trans hub)
      g.iter.toNat 0 g.alpha none m0 r.model r.trace hfl
    exact ⟨p1.trans hvb, p3.trans hab, p4.trans hpb⟩
  · intro ctx m hub
    simp [regValue, hub]

/-- Witness for C4: with `argv = ["prog", "-b", "d"]` the returned globals
    carry `bias = "d"` but `updateBias = false`, and the input-A `fit` run
    (static flag, as the CLI leaves it) keeps the estimated voter biases. -/
theorem claim_C4_update_bias_dead_witness :
    ∃ g', load_args (fun _ => none) (fun _ => none) ["prog", "-b", "d"] = some g' ∧
      g'.updateBias = false ∧ g'.bias = "d" ∧
      ∃ r, fitA = .ok r ∧
        r.model.voterBias = voterBiasOf r.ctx.overallMean [vA] := by
  have hload : load_args (fun _ => none) (fun _ => none) ["prog", "-b", "d"] =
      some { defaultGlobals with bias := "d" } := by
    simp [load_args, loadArgsAux, defaultGlobals]
  have h1 := (claim_C4_update_bias_dead (fun _ => none) (fun _ => none)).1 _ _ hload
  obtain ⟨r, hr⟩ := exceptOk_exists (e := fitA)
    (by norm_num [fitA, vA, rA, gA, fit, finishFit, fitLoop, votePass, voteStep, ratingPass, ratingStep, decayStep, objectiveValue, sseValue, sseVotes, sseRevs, regValue, regMatrices, regBiases, convCheck, tensor_dot, tensor_dot_der_v, tensor_dot_der_a, tensor_dot_der_p, tensor_dot_der_s, voterBiasOf, reviewBiasOf, authorBiasOf, productBiasOf, biasAccum, assocLookup, lookupIdx, resolveProducts, resolveReviews, updateRow, Ctx.voterMap, Ctx.authorMap, Ctx.productMap, Function.update, sqrtA, zeroFun2, zeroFun3, exceptOk, Except.map, Except.toOption, List.dedup_cons_of_mem, List.dedup_cons_of_not_mem, Finset.sum_range_succ])
  have h2 := (claim_C4_update_bias_dead (fun _ => none) (fun _ => none)).2.1
    (fun _ => 0) (fun _ => 0) sqrtA gA zeroFun2 zeroFun2 zeroFun2 zeroFun3 id id
    [vA] [(30, rA)] r rfl hr
  exact ⟨_, hload, h1, rfl, r, hr, h2.1⟩

/-! ## Claim C9: the bias decomposition is a residual split -/

theorem biasAccum_foldl (key : α → ℕ) (term : α → ℚ) :
    ∀ (l : List α) (acc : ℕ → Option (ℚ × ℕ)) (k : ℕ),
    (l.foldl (fun acc x =>
      Function.update acc (key x)
        (some ((((acc (key x)).getD (0, 0)).1 + term x,
                ((acc (key x)).getD (0, 0)).2 + 1))) ) acc) k =
      (if k ∈ l.map key then
        some (((acc k).getD (0, 0)).1 +
                ((l.filter (fun x => key x = k)).map term).sum,
              ((acc k).getD (0, 0)).2 + (l.filter (fun x => key x = k)).length)
      else acc k) := by
  intro l
  induction l with
  | nil =>
    intro acc k
    simp
  | cons x xs ih =>
    intro acc k
    simp only [List.foldl_cons]
    rw [ih]
    by_cases hk : key x = k
    · subst hk
      have hfc : (x :: xs).filter (fun y => key y = key x) =
          x :: xs.filter (fun y => key y = key x) := by
        simp [List.filter_cons]
      have hmm : key x ∈ (x :: xs).map key := by simp
      rw [if_pos hmm, hfc]
      by_cases hmem : key x ∈ xs.map key
      · rw [if_pos hmem]
        simp only [Function.update_same, Option.getD_some, List.map_cons,
          List.sum_cons, List.length_cons, Option.some.injEq, Prod.mk.injEq]
        constructor
        · ring
        · omega
      · rw [if_neg hmem]
        have hfil : xs.filter (fun y => key y = key x) = [] :=
          List.filter_eq_nil_iff.2 fun a ha => by
            simp only [decide_eq_true_eq]
            intro hkey
            exact hmem (hkey ▸ List.mem_map_of_mem key ha)
        simp [hfil, Function.update_same]
    · have hk' : k ≠ key x := fun h => hk h.symm
      have hfc : (x :: xs).filter (fun y => key y = k) =
          xs.filter (fun y => key y = k) := by
        simp [List.filter_cons, hk]
      rw [hfc, Function.update_noteq hk']
      by_cases hmem : k ∈ xs.map key
      · rw [if_pos hmem, if_pos (by simp [hmem])]
      · rw [if_neg hmem, if_neg (by simp [hk', hmem])]

theorem biasAccum_spec (key : α → ℕ) (term : α → ℚ) (l : List α) (k : ℕ) :
    biasAccum key term l k =
      (if k ∈ l.map key then
        some (((l.filter (fun x => key x = k)).map term).sum,
              (l.filter (fun x => key x = k)).length)
      else none) := by
  unfold biasAccum
  rw [biasAccum_foldl]
  simp

theorem sum_map_sub_const (L : List α) (f : α → ℚ) (b : ℚ) :
    (L.map (fun x => f x - b)).sum = (L.map f).sum - L.length * b := by
  induction L with
  | nil => simp
  | cons x xs ih =>
    simp only [List.map_cons, List.sum_cons, List.length_cons, ih]
    push_cast
    ring

theorem group_residual_zero (L : List α) (f : α → ℚ) (hne : L ≠ []) :
    (L.map (fun x => f x - (L.map f).sum / (L.length : ℚ))).sum = 0 := by
  rw [sum_map_sub_const]
  have hlen : (L.length : ℚ) ≠ 0 :=
    Nat.cast_ne_zero.mpr (List.length_pos.mpr hne).ne'
  field_simp

/-- C9: the bias decompositions of `_calculate_vote_bias` and
    `_calculate_rating_bias` are valid residual splits, exactly, over the
    rationals (the claim's "exact arithmetic" reading), for any global
    mean (in particular the ones `fit` computes): for every voter present
    in the votes, the residuals `vote - mean - voter_bias[voter]` of that
    voter's votes sum to zero; for every author present in the reviews,
    the residuals `rating - avg - author_bias[author]` of that author's
    reviews sum to zero; and for every product, the residuals
    `rating - avg - author_bias[author] - product_bias[product]` of its
    reviews sum to zero. -/
theorem claim_C9_bias_residuals :
    (∀ (mean : ℚ) (votes : List Vote) (u : ℕ), u ∈ votes.map (·.voter) →
      ∃ b, voterBiasOf mean votes u = some b ∧
        ((votes.filter (fun vt => vt.voter = u)).map
          (fun vt => vt.vote - mean - b)).sum = 0) ∧
    (∀ (avg : ℚ) (revs : List Review) (a : ℕ), a ∈ revs.map (·.author) →
      ∃ b, authorBiasOf avg revs a = some b ∧
        ((revs.filter (fun rv => rv.author = a)).map
          (fun rv => rv.rating - avg - b)).sum = 0) ∧
    (∀ (avg : ℚ) (revs : List Review) (p : ℕ), p ∈ revs.map (·.product) →
      ∃ b, productBiasOf avg revs p = some b ∧
        ((revs.filter (fun rv => rv.product = p)).map
          (fun rv => rv.rating - avg -
            (authorBiasOf avg revs rv.author).getD 0 - b)).sum = 0) := by
  refine ⟨?_, ?_, ?_⟩
  · intro mean votes u hu
    have hspec := biasAccum_spec (·.voter) (fun vt => vt.vote - mean) votes u
    rw [if_pos hu] at hspec
    refine ⟨_, by unfold voterBiasOf; rw [hspec]; rfl, ?_⟩
    obtain ⟨vt0, hvt0, hv0⟩ := List.mem_map.1 hu
    have hne : votes.filter (fun vt => vt.voter = u) ≠ [] :=
      List.ne_nil_of_mem (List.mem_filter.2 ⟨hvt0, by simp [hv0]⟩)
    exact group_residual_zero _ (fun vt => vt.vote - mean) hne
  · intro avg revs a ha
    have hspec := biasAccum_spec (·.author) (fun rv => rv.rating - avg) revs a
    rw [if_pos ha] at hspec
    refine ⟨_, by unfold authorBiasOf; rw [hspec]; rfl, ?_⟩
    obtain ⟨rv0, hrv0, hr0⟩ := List.mem_map.1 ha
    have hne : revs.filter (fun rv => rv.author = a) ≠ [] :=
      List.ne_nil_of_mem (List.mem_filter.2 ⟨hrv0, by simp [hr0]⟩)
    exact group_residual_zero _ (fun rv => rv.rating - avg) hne
  · intro avg revs p hp
    have hspec := biasAccum_spec (·.product)
      (fun rv => rv.rating - avg - (authorBiasOf avg revs rv.author).getD 0)
      revs p
    rw [if_pos hp] at hspec
    refine ⟨_, by unfold productBiasOf; rw [hspec]; rfl, ?_⟩
    obtain ⟨rv0, hrv0, hr0⟩ := List.mem_map.1 hp
    have hne : revs.filter (fun rv => rv.product = p) ≠ [] :=
      List.ne_nil_of_mem (List.mem_filter.2 ⟨hrv0, by simp [hr0]⟩)
    exact group_residual_zero _
      (fun rv => rv.rating - avg - (authorBiasOf avg revs rv.author).getD 0) hne

/-- Witness for C9 at concrete inputs: the one-vote and one-review lists,
    with arbitrary global means 3/5 and 1/2. -/
theorem claim_C9_bias_residuals_witness :
    ∃ b1 b2 b3,
      voterBiasOf (3/5) [vA] 10 = some b1 ∧
        (([vA].filter (fun vt => vt.voter = 10)).map
          (fun vt => vt.vote - 3/5 - b1)).sum = 0 ∧
      authorBiasOf (1/2) [rA] 20 = some b2 ∧
        (([rA].filter (fun rv => rv.author = 20)).map
          (fun rv => rv.rating - 1/2 - b2)).sum = 0 ∧
      productBiasOf (1/2) [rA] 40 = some b3 ∧
        (([rA].filter (fun rv => rv.product = 40)).map
          (fun rv => rv.rating - 1/2 -
            (authorBiasOf (1/2) [rA] rv.author).getD 0 - b3)).sum = 0 := by
  obtain ⟨b1, h1, h1s⟩ := claim_C9_bias_residuals.1 (3/5) [vA] 10 (by simp [vA])
  obtain ⟨b2, h2, h2s⟩ := claim_C9_bias_residuals.2.1 (1/2) [rA] 20 (by simp [rA])
  obtain ⟨b3, h3, h3s⟩ := claim_C9_bias_residuals.2.2 (1/2) [rA] 40 (by simp [rA])
  exact ⟨b1, b2, b3, h1, h1s, h2, h2s, h3, h3s⟩

/-! ## Claim C8: when `fit` aborts -/

theorem assocLookup_mem : ∀ (l : List (ℕ × Review)) (k : ℕ) (v : Review),
    assocLookup l k = some v → v ∈ l.map (·.2) := by
  intro l
  induction l with
  | nil => intro k v h; exact Option.noConfusion h
  | cons pr rest ih =>
    intro k v h
    obtain ⟨k', v'⟩ := pr
    simp only [assocLookup] at h
    split at h
    · simp only [Option.some.injEq] at h
      subst h
      simp
    · simpa using Or.inr (ih k v h)

theorem resolveProducts_err (reviewsL : List (ℕ × Review)) :
    ∀ (votes : List Vote), (∃ vt ∈ votes, assocLookup reviewsL vt.review = none) →
    resolveProducts reviewsL votes = .error .key := by
  intro votes
  induction votes with
  | nil => rintro ⟨vt, h, -⟩; simp at h
  | cons vt rest ih =>
    rintro ⟨w, hw, hnone⟩
    rcases List.mem_cons.1 hw with rfl | hwrest
    · simp [resolveProducts, hnone]
    · cases hrev : assocLookup reviewsL vt.review with
      | none => simp [resolveProducts, hrev]
      | some rev =>
        have ihe := ih ⟨w, hwrest, hnone⟩
        simp [resolveProducts, hrev, ihe]

theorem resolveProducts_ok_lookups (reviewsL : List (ℕ × Review)) :
    ∀ (votes : List Vote) (ps : List ℕ),
    resolveProducts reviewsL votes = .ok ps →
    ∀ vt ∈ votes, ∃ rev, assocLookup reviewsL vt.review = some rev ∧
      rev.product ∈ ps := by
  intro votes
  induction votes with
  | nil => intro ps h vt hvt; simp at hvt
  | cons vt0 rest ih =>
    intro ps h vt hvt
    simp only [resolveProducts] at h
    rcases hrev : assocLookup reviewsL vt0.review with _ | rev0
    · simp only [hrev] at h
      exact Except.noConfusion h
    · simp only [hrev] at h
      rcases hrec : resolveProducts reviewsL rest with e | ps'
      · simp only [hrec] at h
        exact Except.noConfusion h
      · simp only [hrec, Except.ok.injEq] at h
        subst h
        rcases List.mem_cons.1 hvt with rfl | hmem
        · exact ⟨rev0, hrev, by simp⟩
        · obtain ⟨rev, h1, h2⟩ := ih ps' hrec vt hmem
          exact ⟨rev, h1, by simp [h2]⟩

theorem resolveProducts_ok (reviewsL : List (ℕ × Review)) :
    ∀ (votes : List Vote),
    (∀ vt ∈ votes, (assocLookup reviewsL vt.review).isSome = true) →
    ∃ ps, resolveProducts reviewsL votes = .ok ps := by
  intro votes
  induction votes with
  | nil => intro h; exact ⟨[], rfl⟩
  | cons vt rest ih =>
    intro h
    obtain ⟨rev, hrev⟩ := Option.isSome_iff_exists.1 (h vt (by simp))
    obtain ⟨ps, hps⟩ := ih (fun w hw => h w (by simp [hw]))
    exact ⟨rev.product :: ps, by simp [resolveProducts, hrev, hps]⟩

theorem resolveReviews_char (reviewsL : List (ℕ × Review)) :
    ∀ (ids : List ℕ) (rs : List Review),
    resolveReviews reviewsL ids = .ok rs →
    (∀ rid ∈ ids, ∃ rv, assocLookup reviewsL rid = some rv ∧ rv ∈ rs) ∧
    (∀ rv ∈ rs, ∃ rid ∈ ids, assocLookup reviewsL rid = some rv) := by
  intro ids
  induction ids with
  | nil =>
    intro rs h
    simp only [resolveReviews, Except.ok.injEq] at h
    subst h
    constructor
    · intro rid hrid; simp at hrid
    · intro rv hrv; simp at hrv
  | cons rid0 rest ih =>
    intro rs h
    simp only [resolveReviews] at h
    rcases hrev : assocLookup reviewsL rid0 with _ | rv0
    · simp only [hrev] at h
      exact Except.noConfusion h
    · simp only [hrev] at h
      rcases hrec : resolveReviews reviewsL rest with e | rs'
      · simp only [hrec] at h
        exact Except.noConfusion h
      · simp only [hrec, Except.ok.injEq] at h
        subst h
        obtain ⟨f1, f2⟩ := ih rs' hrec
        constructor
        · intro rid hrid
          rcases List.mem_cons.1 hrid with rfl | hmem
          · exact ⟨rv0, hrev, by simp⟩
          · obtain ⟨rv, h1, h2⟩ := f1 rid hmem
            exact ⟨rv, h1, by simp [h2]⟩
        · intro rv hrv
          rcases List.mem_cons.1 hrv with rfl | hmem
          · exact ⟨rid0, by simp, hrev⟩
          · obtain ⟨rid, h1, h2⟩ := f2 rv hmem
            exact ⟨rid, by simp [h1], h2⟩

theorem resolveReviews_ok (reviewsL : List (ℕ × Review)) :
    ∀ (ids : List ℕ),
    (∀ rid ∈ ids, (assocLookup reviewsL rid).isSome = true) →
    ∃ rs, resolveReviews reviewsL ids = .ok rs := by
  intro ids
  induction ids with
  | nil => intro h; exact ⟨[], rfl⟩
  | cons rid rest ih =>
    intro h
    obtain ⟨rv, hrv⟩ := Option.isSome_iff_exists.1 (h rid (by simp))
    obtain ⟨rs, hrs⟩ := ih (fun w hw => h w (by simp [hw]))
    exact ⟨rv :: rs, by simp [resolveReviews, hrv, hrs]⟩

theorem voterBiasOf_isSome (mean : ℚ) (votes : List Vote) (u : ℕ) :
    (voterBiasOf mean votes u).isSome = true ↔ u ∈ votes.map (·.voter) := by
  unfold voterBiasOf
  rw [biasAccum_spec]
  by_cases h : u ∈ votes.map (·.voter) <;> simp [h]

theorem reviewBiasOf_isSome (mean : ℚ) (votes : List Vote) (rid : ℕ) :
    (reviewBiasOf mean votes rid).isSome = true ↔ rid ∈ votes.map (·.review) := by
  unfold reviewBiasOf
  rw [biasAccum_spec]
  by_cases h : rid ∈ votes.map (·.review) <;> simp [h]

theorem authorBiasOf_isSome (avg : ℚ) (revs : List Review) (a : ℕ) :
    (authorBiasOf avg revs a).isSome = true ↔ a ∈ revs.map (·.author) := by
  unfold authorBiasOf
  rw [biasAccum_spec]
  by_cases h : a ∈ revs.map (·.author) <;> simp [h]

theorem productBiasOf_isSome (avg : ℚ) (revs : List Review) (p : ℕ) :
    (productBiasOf avg revs p).isSome = true ↔ p ∈ revs.map (·.product) := by
  unfold productBiasOf
  rw [biasAccum_spec]
  by_cases h : p ∈ revs.map (·.product) <;> simp [h]

theorem voteStep_ok (ctx : Ctx) (alpha : ℚ) (m : Model) (vt : Vote)
    (h1 : ∃ rev, assocLookup ctx.reviewsL vt.review = some rev ∧
      (ctx.productMap rev.product).isSome = true)
    (h2 : (ctx.voterMap vt.voter).isSome = true)
    (h3 : (ctx.authorMap vt.author).isSome = true)
    (h4 : (m.voterBias vt.voter).isSome = true)
    (h5 : (m.reviewBias vt.review).isSome = true) :
    exceptOk (voteStep ctx alpha m vt) = true := by
  obtain ⟨rev, hrev, hpm⟩ := h1
  obtain ⟨p, hp⟩ := Option.isSome_iff_exists.1 hpm
  obtain ⟨v, hv⟩ := Option.isSome_iff_exists.1 h2
  obtain ⟨a, ha⟩ := Option.isSome_iff_exists.1 h3
  obtain ⟨vb, hvb⟩ := Option.isSome_iff_exists.1 h4
  obtain ⟨rb, hrb⟩ := Option.isSome_iff_exists.1 h5
  simp only [voteStep, hrev, hv, ha, hp, hvb, hrb, exceptOk]

theorem votePass_ok (ctx : Ctx) (alpha : ℚ) :
    ∀ (l : List Vote) (m : Model),
    (∀ vt ∈ l, (∃ rev, assocLookup ctx.reviewsL vt.review = some rev ∧
        (ctx.productMap rev.product).isSome = true) ∧
      (ctx.voterMap vt.voter).isSome = true ∧
      (ctx.authorMap vt.author).isSome = true) →
    (∀ vt ∈ l, (m.voterBias vt.voter).isSome = true ∧
      (m.reviewBias vt.review).isSome = true) →
    ∃ m', votePass ctx alpha m l = .ok m' := by
  intro l
  induction l with
  | nil => intro m h1 h2; exact ⟨m, rfl⟩
  | cons vt rest ih =>
    intro m h1 h2
    obtain ⟨ha1, ha2, ha3⟩ := h1 vt (by simp)
    obtain ⟨hb1, hb2⟩ := h2 vt (by simp)
    obtain ⟨m1, hm1⟩ := exceptOk_exists (voteStep_ok ctx alpha m vt ha1 ha2 ha3 hb1 hb2)
    obtain ⟨e1, e2, -, -⟩ := voteStep_same_bias ctx alpha m m1 vt hm1
    obtain ⟨m', hm'⟩ := ih m1 (fun w hw => h1 w (by simp [hw]))
      (fun w hw => by rw [e1, e2]; exact h2 w (by simp [hw]))
    exact ⟨m', by simp only [votePass, hm1]; exact hm'⟩

theorem ratingStep_ok (ctx : Ctx) (alpha : ℚ) (m : Model) (rv : Review)
    (h1 : (ctx.authorMap rv.author).isSome = true)
    (h2 : (ctx.productMap rv.product).isSome = true)
    (h3 : (m.authorBias rv.author).isSome = true)
    (h4 : (m.productBias rv.product).isSome = true) :
    exceptOk (ratingStep ctx alpha m rv) = true := by
  obtain ⟨a, ha⟩ := Option.isSome_iff_exists.1 h1
  obtain ⟨p, hp⟩ := Option.isSome_iff_exists.1 h2
  obtain ⟨ab, hab⟩ := Option.isSome_iff_exists.1 h3
  obtain ⟨pb, hpb⟩ := Option.isSome_iff_exists.1 h4
  simp only [ratingStep, ha, hp, hab, hpb, exceptOk]

theorem ratingPass_ok (ctx : Ctx) (alpha : ℚ) :
    ∀ (l : List Review) (m : Model),
    (∀ rv ∈ l, (ctx.authorMap rv.author).isSome = true ∧
      (ctx.productMap rv.product).isSome = true) →
    (∀ rv ∈ l, (m.authorBias rv.author).isSome = true ∧
      (m.productBias rv.product).isSome = true) →
    ∃ m', ratingPass ctx alpha m l = .ok m' := by
  intro l
  induction l with
  | nil => intro m h1 h2; exact ⟨m, rfl⟩
  | cons rv rest ih =>
    intro m h1 h2
    obtain ⟨ha1, ha2⟩ := h1 rv (by simp)
    obtain ⟨hb1, hb2⟩ := h2 rv (by simp)
    obtain ⟨m1, hm1⟩ := exceptOk_exists (ratingStep_ok ctx alpha m rv ha1 ha2 hb1 hb2)
    obtain ⟨-, -, e3, e4⟩ := ratingStep_same_bias ctx alpha m m1 rv hm1
    obtain ⟨m', hm'⟩ := ih m1 (fun w hw => h1 w (by simp [hw]))
      (fun w hw => by rw [e3, e4]; exact h2 w (by simp [hw]))
    exact ⟨m', by simp only [ratingPass, hm1]; exact hm'⟩

theorem decayStep_bias_isSome (ctx : Ctx) (alpha : ℚ) (m : Model) :
    (∀ u, ((decayStep ctx alpha m).voterBias u).isSome = (m.voterBias u).isSome) ∧
    (∀ r, ((decayStep ctx alpha m).reviewBias r).isSome = (m.reviewBias r).isSome) ∧
    (∀ a, ((decayStep ctx alpha m).authorBias a).isSome = (m.authorBias a).isSome) ∧
    (∀ p, ((decayStep ctx alpha m).productBias p).isSome = (m.productBias p).isSome) := by
  cases hub : ctx.updateBias <;>
    simp [decayStep, hub]

theorem sseVotes_ok (ctx : Ctx) (m : Model) :
    ∀ (l : List Vote) (acc : ℚ),
    (∀ vt ∈ l, (∃ rev, assocLookup ctx.reviewsL vt.review = some rev ∧
        (ctx.productMap rev.product).isSome = true) ∧
      (ctx.voterMap vt.voter).isSome = true ∧
      (ctx.authorMap vt.author).isSome = true) →
    (∀ vt ∈ l, (m.voterBias vt.voter).isSome = true ∧
      (m.reviewBias vt.review).isSome = true) →
    ∃ s, sseVotes ctx m acc l = .ok s := by
  intro l
  induction l with
  | nil => intro acc h1 h2; exact ⟨acc, rfl⟩
  | cons vt rest ih =>
    intro acc h1 h2
    obtain ⟨⟨rev, hrev, hpm⟩, ha2, ha3⟩ := h1 vt (by simp)
    obtain ⟨hb1, hb2⟩ := h2 vt (by simp)
    obtain ⟨p, hp⟩ := Option.isSome_iff_exists.1 hpm
    obtain ⟨v, hv⟩ := Option.isSome_iff_exists.1 ha2
    obtain ⟨a, ha⟩ := Option.isSome_iff_exists.1 ha3
    obtain ⟨vb, hvb⟩ := Option.isSome_iff_exists.1 hb1
    obtain ⟨rb, hrb⟩ := Option.isSome_iff_exists.1 hb2
    obtain ⟨s, hs⟩ := ih _ (fun w hw => h1 w (by simp [hw]))
      (fun w hw => h2 w (by simp [hw]))
    exact ⟨s, by simp only [sseVotes, hrev, hv, ha, hp, hvb, hrb]; exact hs⟩

theorem sseRevs_ok (ctx : Ctx) (m : Model) :
    ∀ (l : List Review) (acc : ℚ),
    (∀ rv ∈ l, (ctx.authorMap rv.author).isSome = true ∧
      (ctx.productMap rv.product).isSome = true) →
    (∀ rv ∈ l, (m.authorBias rv.author).isSome = true ∧
      (m.productBias rv.product).isSome = true) →
    ∃ s, sseRevs ctx m acc l = .ok s := by
  intro l
  induction l with
  | nil => intro acc h1 h2; exact ⟨acc, rfl⟩
  | cons rv rest ih =>
    intro acc h1 h2
    obtain ⟨ha1, ha2⟩ := h1 rv (by simp)
    obtain ⟨hb1, hb2⟩ := h2 rv (by simp)
    obtain ⟨a, ha⟩ := Option.isSome_iff_exists.1 ha1
    obtain ⟨p, hp⟩ := Option.isSome_iff_exists.1 ha2
    obtain ⟨ab, hab⟩ := Option.isSome_iff_exists.1 hb1
    obtain ⟨pb, hpb⟩ := Option.isSome_iff_exists.1 hb2
    obtain ⟨s, hs⟩ := ih _ (fun w hw => h1 w (by simp [hw]))
      (fun w hw => h2 w (by simp [hw]))
    exact ⟨s, by simp only [sseRevs, ha, hp, hab, hpb]; exact hs⟩

theorem objectiveValue_ok (ctx : Ctx) (m : Model)
    (h1 : ∀ vt ∈ ctx.votes, (∃ rev, assocLookup ctx.reviewsL vt.review = some rev ∧
        (ctx.productMap rev.product).isSome = true) ∧
      (ctx.voterMap vt.voter).isSome = true ∧
      (ctx.authorMap vt.author).isSome = true)
    (h2 : ∀ vt ∈ ctx.votes, (m.voterBias vt.voter).isSome = true ∧
      (m.reviewBias vt.review).isSome = true)
    (h3 : ∀ rv ∈ ctx.revs, (ctx.authorMap rv.author).isSome = true ∧
      (ctx.productMap rv.product).isSome = true)
    (h4 : ∀ rv ∈ ctx.revs, (m.authorBias rv.author).isSome = true ∧
      (m.productBias rv.product).isSome = true) :
    ∃ q, objectiveValue ctx m = .ok q := by
  obtain ⟨s1, hs1⟩ := sseVotes_ok ctx m ctx.votes 0 h1 h2
  obtain ⟨s2, hs2⟩ := sseRevs_ok ctx m ctx.revs s1 h3 h4
  refine ⟨(s2 + regValue ctx m) / 2, ?_⟩
  simp only [objectiveValue, sseValue, hs1, hs2]

theorem fitLoop_ok (ctx : Ctx)
    (h1 : ∀ vt ∈ ctx.votes, (∃ rev, assocLookup ctx.reviewsL vt.review = some rev ∧
        (ctx.productMap rev.product).isSome = true) ∧
      (ctx.voterMap vt.voter).isSome = true ∧
      (ctx.authorMap vt.author).isSome = true)
    (h3 : ∀ rv ∈ ctx.revs, (ctx.authorMap rv.author).isSome = true ∧
      (ctx.productMap rv.product).isSome = true) :
    ∀ (fuel it : ℕ) (alphaIn : ℚ) (prev : Option ℚ) (m : Model),
    (∀ vt ∈ ctx.votes, (m.voterBias vt.voter).isSome = true ∧
      (m.reviewBias vt.review).isSome = true) →
    (∀ rv ∈ ctx.revs, (m.authorBias rv.author).isSome = true ∧
      (m.productBias rv.product).isSome = true) →
    ∃ out, fitLoop ctx fuel it alphaIn prev m = .ok out := by
  intro fuel
  induction fuel with
  | zero =>
    intro it alphaIn prev m h2 h4
    exact ⟨(m, []), rfl⟩
  | succ n ih =>
    intro it alphaIn prev m h2 h4
    obtain ⟨m1, hm1⟩ := votePass_ok ctx (alphaIn / ctx.sqrtFn (it + 1)) ctx.votes m
      h1 h2
    obtain ⟨bv1, br1, ba1, bp1⟩ := votePass_same_bias ctx _ ctx.votes m m1 hm1
    obtain ⟨m2, hm2⟩ := ratingPass_ok ctx (alphaIn / ctx.sqrtFn (it + 1)) ctx.revs
      m1 h3 (fun rv hrv => by rw [ba1, bp1]; exact h4 rv hrv)
    obtain ⟨bv2, br2, ba2, bp2⟩ := ratingPass_same_bias ctx _ ctx.revs m1 m2 hm2
    obtain ⟨d1, d2, d3, d4⟩ := decayStep_bias_isSome ctx
      (alphaIn / ctx.sqrtFn (it + 1)) m2
    have h2' : ∀ vt ∈ ctx.votes,
        (((decayStep ctx (alphaIn / ctx.sqrtFn (it + 1)) m2).voterBias
          vt.voter).isSome = true) ∧
        (((decayStep ctx (alphaIn / ctx.sqrtFn (it + 1)) m2).reviewBias
          vt.review).isSome = true) := by
      intro vt hvt
      refine ⟨?_, ?_⟩
      · rw [d1 vt.voter, bv2, bv1]
        exact (h2 vt hvt).1
      · rw [d2 vt.review, br2, br1]
        exact (h2 vt hvt).2
    have h4' : ∀ rv ∈ ctx.revs,
        (((decayStep ctx (alphaIn / ctx.sqrtFn (it + 1)) m2).authorBias
          rv.author).isSome = true) ∧
        (((decayStep ctx (alphaIn / ctx.sqrtFn (it + 1)) m2).productBias
          rv.product).isSome = true) := by
      intro rv hrv
      refine ⟨?_, ?_⟩
      · rw [d3 rv.author, ba2, ba1]
        exact (h4 rv hrv).1
      · rw [d4 rv.product, bp2, bp1]
        exact (h4 rv hrv).2
    obtain ⟨q, hq⟩ := objectiveValue_ok ctx
      (decayStep ctx (alphaIn / ctx.sqrtFn (it + 1)) m2) h1 h2' h3 h4'
    cases hcv : convCheck prev q ctx.tol
    · obtain ⟨out, hout⟩ := ih (it + 1) (alphaIn / ctx.sqrtFn (it + 1)) (some q)
        (decayStep ctx (alphaIn / ctx.sqrtFn (it + 1)) m2) h2' h4'
      obtain ⟨mF, logs⟩ := out
      refine ⟨(mF, ⟨alphaIn / ctx.sqrtFn (it + 1), ctx.votes, ctx.revs, prev, q⟩
        :: logs), ?_⟩
      simp only [fitLoop, hm1, hm2, hq, hcv, Bool.false_eq_true, if_false, hout]
    · refine ⟨(decayStep ctx (alphaIn / ctx.sqrtFn (it + 1)) m2,
        [⟨alphaIn / ctx.sqrtFn (it + 1), ctx.votes, ctx.revs, prev, q⟩]), ?_⟩
      simp only [fitLoop, hm1, hm2, hq, hcv, if_true]

theorem ratingStep_authorMap (ctx : Ctx) (alpha : ℚ) (m m' : Model) (rv : Review)
    (h : ratingStep ctx alpha m rv = .ok m') :
    (ctx.authorMap rv.author).isSome = true := by
  cases h0 : ctx.authorMap rv.author with
  | some a => rfl
  | none =>
    simp only [ratingStep, h0] at h
    exact Except.noConfusion h

theorem ratingPass_authorMap (ctx : Ctx) (alpha : ℚ) :
    ∀ (l : List Review) (m m' : Model), ratingPass ctx alpha m l = .ok m' →
    ∀ rv ∈ l, (ctx.authorMap rv.author).isSome = true := by
  intro l
  induction l with
  | nil =>
    intro m m' h rv hrv
    simp at hrv
  | cons rv0 rest ih =>
    intro m m' h rv hrv
    simp only [ratingPass] at h
    rcases hstep : ratingStep ctx alpha m rv0 with e | m1
    · simp only [hstep] at h
      exact Except.noConfusion h
    · simp only [hstep] at h
      rcases List.mem_cons.1 hrv with rfl | hmem
      · exact ratingStep_authorMap ctx alpha m m1 rv hstep
      · exact ih m1 m' h rv hmem

theorem finishFit_ok (ctx : Ctx) (res : Except Err (Model × List EpochLog))
    (h : ∃ out, res = .ok out) : exceptOk (finishFit ctx res) = true := by
  obtain ⟨⟨mF, logs⟩, hout⟩ := h
  rw [hout]
  rfl

theorem fit_inv2 (sig sigDer : ℚ → ℚ) (sqrtFn : ℕ → ℚ) (g : Globals)
    (iV iA iP : ℕ → ℕ → ℚ) (iS : ℕ → ℕ → ℕ → ℚ)
    (shV : List Vote → List Vote) (shR : List Review → List Review)
    (votes : List Vote) (reviewsL : List (ℕ × Review)) (r : FitResult)
    (h : fit sig sigDer sqrtFn g iV iA iP iS shV shR votes reviewsL = .ok r) :
    votes.length ≠ 0 ∧ reviewsL.length ≠ 0 ∧
    ∃ prods revRecs,
      resolveProducts reviewsL votes = .ok prods ∧
      resolveReviews reviewsL (((shV votes).map (·.review)).dedup) = .ok revRecs ∧
      r.ctx.votes = shV votes ∧ r.ctx.revs = shR revRecs ∧
      r.ctx.reviewsL = reviewsL ∧
      r.ctx.distinctVoters = (votes.map (·.voter)).dedup ∧
      r.ctx.distinctAuthors = (votes.map (·.author)).dedup ∧
      r.ctx.distinctProducts = prods.dedup ∧
      ∃ m0, fitLoop r.ctx g.iter.toNat 0 g.alpha none m0 = .ok (r.model, r.trace) := by
  simp only [fit, finishFit] at h
  split at h
  · exact Except.noConfusion h
  next prods hprods =>
    split at h
    next hlen => exact Except.noConfusion h
    next hlen =>
      split at h
      next hrl => exact Except.noConfusion h
      next hrl =>
        split at h
        · exact Except.noConfusion h
        next revRecs hrr =>
          split at h
          · exact Except.noConfusion h
          next mm logs hfl =>
            cases h
            exact ⟨hlen, hrl, prods, revRecs, hprods, hrr, rfl, rfl, rfl, rfl,
              rfl, rfl, _, hfl⟩

/-- C8 (amended): with at least one configured iteration and genuine
    shuffles, `fit` returns normally exactly when three input conditions
    hold: the vote list is nonempty, every vote's review id is present in
    the review dictionary, and every such review's author is the author
    field of some training vote.  The first two failures are the claimed
    ones (`ZeroDivisionError` computing the overall mean, `KeyError`
    resolving a product); the third is an additional abort the claim
    omits: the rating pass looks the review's author up in `author_map`,
    which is built from vote author fields only (line 130; the union with
    review authors is commented out on line 131), so a review whose author
    authored no vote raises `KeyError` in the first epoch. -/
theorem claim_C8_amended_abort_conditions (sig sigDer : ℚ → ℚ) (sqrtFn : ℕ → ℚ)
    (g : Globals) (iV iA iP : ℕ → ℕ → ℚ) (iS : ℕ → ℕ → ℕ → ℚ)
    (shV : List Vote → List Vote) (shR : List Review → List Review)
    (votes : List Vote) (reviewsL : List (ℕ × Review))
    (hshV : ∀ l, List.Perm (shV l) l)
    (hshR : ∀ l : List Review, List.Perm (shR l) l)
    (hiter : g.iter.toNat ≠ 0) :
    exceptOk (fit sig sigDer sqrtFn g iV iA iP iS shV shR votes reviewsL) = true ↔
      FitOkCond votes reviewsL := by
  constructor
  · intro hok
    obtain ⟨r, hr⟩ := exceptOk_exists hok
    obtain ⟨hlen, hrl, prods, revRecs, hprods, hrr, hcvotes, hcrevs, hcrl, hdv,
      hda, hdp, m0, hfl⟩ :=
      fit_inv2 sig sigDer sqrtFn g iV iA iP iS shV shR votes reviewsL r hr
    refine ⟨fun hh => hlen (by rw [hh]; rfl), ?_⟩
    intro vt hvt
    obtain ⟨rev, hrev, hprodmem⟩ :=
      resolveProducts_ok_lookups reviewsL votes prods hprods vt hvt
    refine ⟨rev, hrev, ?_⟩
    by_contra hauth
    obtain ⟨n, hn⟩ := Nat.exists_eq_succ_of_ne_zero hiter
    rw [hn] at hfl
    obtain ⟨m1, m2, value, logs', hvp, hrp, -, -, -⟩ :=
      fitLoop_succ_inv r.ctx n 0 g.alpha none m0 r.model r.trace hfl
    have hvtmem : vt ∈ shV votes := (hshV votes).mem_iff.2 hvt
    have hidmem : vt.review ∈ ((shV votes).map (·.review)).dedup := by
      rw [List.mem_dedup]
      exact List.mem_map_of_mem _ hvtmem
    obtain ⟨hfor, -⟩ := resolveReviews_char reviewsL _ revRecs hrr
    obtain ⟨rv, hrv, hrvmem⟩ := hfor vt.review hidmem
    have hreveq : rev = rv := by
      rw [hrev] at hrv
      exact Option.some.inj hrv
    subst hreveq
    have hmemrevs : rev ∈ r.ctx.revs := by
      rw [hcrevs]
      exact (hshR revRecs).mem_iff.2 hrvmem
    have hsome := ratingPass_authorMap r.ctx (g.alpha / r.ctx.sqrtFn (0 + 1))
      r.ctx.revs m1 m2 hrp rev hmemrevs
    rw [show r.ctx.authorMap rev.author =
      lookupIdx r.ctx.distinctAuthors rev.author from rfl, hda,
      lookupIdx_isSome_iff, List.mem_dedup] at hsome
    exact hauth hsome
  · rintro ⟨hne, hcond⟩
    have hlook : ∀ vt ∈ votes, (assocLookup reviewsL vt.review).isSome = true := by
      intro vt hvt
      obtain ⟨rev, h1, -⟩ := hcond vt hvt
      rw [h1]
      rfl
    obtain ⟨ps, hps⟩ := resolveProducts_ok reviewsL votes hlook
    obtain ⟨vt0, hvt0⟩ := List.exists_mem_of_ne_nil votes hne
    have hrlne : ¬(reviewsL.length = 0) := by
      intro hl
      obtain ⟨rev0, h1, -⟩ := hcond vt0 hvt0
      rw [List.length_eq_zero] at hl
      subst hl
      simp [assocLookup] at h1
    have hids : ∀ rid ∈ ((shV votes).map (·.review)).dedup,
        (assocLookup reviewsL rid).isSome = true := by
      intro rid hrid
      rw [List.mem_dedup] at hrid
      obtain ⟨vt, hvtm, rfl⟩ := List.mem_map.1 hrid
      exact hlook vt ((hshV votes).mem_iff.1 hvtm)
    obtain ⟨rs, hrs⟩ := resolveReviews_ok reviewsL _ hids
    simp only [fit, hps]
    rw [if_neg (fun hh => hne (List.length_eq_zero.1 hh))]
    rw [if_neg hrlne]
    simp only [hrs]
    refine finishFit_ok _ _ ?_
    refine fitLoop_ok _ ?_ ?_ g.iter.toNat 0 g.alpha none _ ?_ ?_
    · intro vt hvt
      have hvt' : vt ∈ votes := (hshV votes).mem_iff.1 hvt
      obtain ⟨rev, hrev, -⟩ := hcond vt hvt'
      obtain ⟨rev2, hrev2, hpm2⟩ :=
        resolveProducts_ok_lookups reviewsL votes ps hps vt hvt'
      have : rev2 = rev := by
        rw [hrev] at hrev2
        exact (Option.some.inj hrev2).symm
      subst this
      refine ⟨⟨rev2, hrev, ?_⟩, ?_, ?_⟩
      · exact (lookupIdx_isSome_iff ps.dedup rev2.product).2 (List.mem_dedup.2 hpm2)
      · exact (lookupIdx_isSome_iff ((votes.map (·.voter)).dedup) vt.voter).2
          (List.mem_dedup.2 (List.mem_map_of_mem _ hvt'))
      · exact (lookupIdx_isSome_iff ((votes.map (·.author)).dedup) vt.author).2
          (List.mem_dedup.2 (List.mem_map_of_mem _ hvt'))
    · intro rv hrv
      have hrv' : rv ∈ rs := (hshR rs).mem_iff.1 hrv
      obtain ⟨-, hback⟩ := resolveReviews_char reviewsL _ rs hrs
      obtain ⟨rid, hridmem, hridlook⟩ := hback rv hrv'
      rw [List.mem_dedup] at hridmem
      obtain ⟨vt, hvtm, rfl⟩ := List.mem_map.1 hridmem
      have hvt' : vt ∈ votes := (hshV votes).mem_iff.1 hvtm
      obtain ⟨rev, hrev, hauthmem⟩ := hcond vt hvt'
      have : rev = rv := by
        rw [hrev] at hridlook
        exact Option.some.inj hridlook
      subst this
      obtain ⟨rev2, hrev2, hpm2⟩ :=
        resolveProducts_ok_lookups reviewsL votes ps hps vt hvt'
      have : rev2 = rev := by
        rw [hrev] at hrev2
        exact (Option.some.inj hrev2).symm
      subst this
      refine ⟨?_, ?_⟩
      · exact (lookupIdx_isSome_iff ((votes.map (·.author)).dedup) rev2.author).2
          (List.mem_dedup.2 hauthmem)
      · exact (lookupIdx_isSome_iff ps.dedup rev2.product).2 (List.mem_dedup.2 hpm2)
    · intro vt hvt
      have hvt' : vt ∈ votes := (hshV votes).mem_iff.1 hvt
      refine ⟨?_, ?_⟩
      · exact (voterBiasOf_isSome
          ((votes.map (·.vote)).sum / (votes.length : ℚ)) votes vt.voter).2
          (List.mem_map_of_mem _ hvt')
      · exact (reviewBiasOf_isSome
          ((votes.map (·.vote)).sum / (votes.length : ℚ)) votes vt.review).2
          (List.mem_map_of_mem _ hvt')
    · intro rv hrv
      have hrv' : rv ∈ rs := (hshR rs).mem_iff.1 hrv
      obtain ⟨-, hback⟩ := resolveReviews_char reviewsL _ rs hrs
      obtain ⟨rid, hridmem, hridlook⟩ := hback rv hrv'
      have hrvmem : rv ∈ reviewsL.map (·.2) := assocLookup_mem reviewsL rid rv hridlook
      refine ⟨?_, ?_⟩
      · exact (authorBiasOf_isSome
          ((reviewsL.map (·.2.rating)).sum / (reviewsL.length : ℚ))
          (reviewsL.map (·.2)) rv.author).2 (List.mem_map_of_mem _ hrvmem)
      · exact (productBiasOf_isSome
          ((reviewsL.map (·.2.rating)).sum / (reviewsL.length : ℚ))
          (reviewsL.map (·.2)) rv.product).2 (List.mem_map_of_mem _ hrvmem)

/-- C8 counterexample: input C has a nonempty vote list and every vote's
    review id present in the review dictionary — neither of the claim's
    two abort situations — yet `fit` does not return normally: review 30
    is attributed to author 9, who authored no vote, and the rating pass
    of the first epoch raises `KeyError` on `author_map[9]`. -/
theorem claim_C8_counterexample :
    ([vC] : List Vote) ≠ [] ∧
    (∀ vt ∈ [vC], (assocLookup [(30, rC)] vt.review).isSome = true) ∧
    exceptOk fitC = false := by
  refine ⟨by simp, ?_, ?_⟩
  · intro vt hvt
    simp only [List.mem_singleton] at hvt
    subst hvt
    simp [vC, rC, assocLookup]
  · norm_num [fitC, vC, rC, gA, fit, finishFit, fitLoop, votePass, voteStep, ratingPass, ratingStep, decayStep, objectiveValue, sseValue, sseVotes, sseRevs, regValue, regMatrices, regBiases, convCheck, tensor_dot, tensor_dot_der_v, tensor_dot_der_a, tensor_dot_der_p, tensor_dot_der_s, voterBiasOf, reviewBiasOf, authorBiasOf, productBiasOf, biasAccum, assocLookup, lookupIdx, resolveProducts, resolveReviews, updateRow, Ctx.voterMap, Ctx.authorMap, Ctx.productMap, Function.update, sqrtA, zeroFun2, zeroFun3, exceptOk, Except.map, Except.toOption, List.dedup_cons_of_mem, List.dedup_cons_of_not_mem, Finset.sum_range_succ]

/-- Witness for the amended C8 at input A: all three conditions hold and
    `fit` indeed returns normally. -/
theorem claim_C8_amended_abort_conditions_witness :
    FitOkCond [vA] [(30, rA)] ∧ exceptOk fitA = true := by
  have hcond : FitOkCond [vA] [(30, rA)] := by
    refine ⟨by simp, ?_⟩
    intro vt hvt
    simp only [List.mem_singleton] at hvt
    subst hvt
    exact ⟨rA, by simp [assocLookup, vA], by simp [rA, vA]⟩
  refine ⟨hcond, ?_⟩
  exact (claim_C8_amended_abort_conditions (fun _ => 0) (fun _ => 0) sqrtA gA
    zeroFun2 zeroFun2 zeroFun2 zeroFun3 id id [vA] [(30, rA)]
    (fun l => List.Perm.refl l) (fun l => List.Perm.refl l) (by decide)).2 hcond
